import Mathlib

/-!
Verification of the `BlockSystemAccounts` rule
(`src/stonix_resources/rules/BlockSystemAccounts.py`).

The rule audits (`report`) and remediates (`fix`) `/etc/passwd`.  The file
content is read by `readFile` as a list of lines (Python `readlines`
semantics: the text is split after every newline character and every line
except possibly the last keeps its trailing newline).  The embedding below
models a single invocation of each method on the list of lines, together
with the sequence of file-system / change-journal effects that `fix`
performs.

Python strings are modelled as `List Char`.  The pieces of Python semantics
the source uses are embedded exactly:
  * `str.strip()`        -> `pyStrip` (strips " \t\n\r\x0b\x0c" at both ends)
  * `s.split(":")`       -> `splitColon` (keeps empty fields, `"" -> [""]`)
  * `":".join(fs)`       -> `joinColon`
  * `int(s)`             -> `pyInt` (optional surrounding whitespace, optional
                            sign, then one or more ASCII digits; Python 2
                            `int`, no underscores)
  * `re.search("^#", s)` / `re.match("^#", s)` -> `isComment`
  * `re.match("^\\s*$", s)` -> `isBlank` (all characters whitespace)
  * `re.search(":/sbin/nologin$|:/dev/null$", s)` -> `searchBlocked`; without
    `re.MULTILINE`, `$` matches at the end of the string or just before a
    final newline, so the regex matches iff `s` ends with the suffix,
    optionally followed by one final newline.
-/

/-- A Python string. -/
abbrev PyStr := List Char

/-- A line of the account database, as produced by `readlines`. -/
abbrev Line := PyStr

/-- The characters Python's `str.strip()` and `\s` (ASCII) treat as
whitespace: space, tab, newline, carriage return, vertical tab, form feed. -/
def isPySpace (c : Char) : Bool :=
  c = ' ' || c = '\t' || c = '\n' || c = '\r' || c = '\x0b' || c = '\x0c'

/-- Python `str.rstrip()`: remove trailing whitespace. -/
def rstripC (l : PyStr) : PyStr :=
  (l.reverse.dropWhile isPySpace).reverse

/-- Python `str.strip()`: remove leading and trailing whitespace. -/
def pyStrip (l : PyStr) : PyStr :=
  rstripC (l.dropWhile isPySpace)

/-- Python `s.split(":")`: split on every colon, keeping empty fields;
`"".split(":") == [""]`. -/
def splitColon : PyStr → List PyStr
  | [] => [[]]
  | c :: cs =>
    if c = ':' then [] :: splitColon cs
    else
      match splitColon cs with
      | [] => [[c]]
      | f :: r => (c :: f) :: r

/-- Python `":".join(fields)`. -/
def joinColon : List PyStr → PyStr
  | [] => []
  | [f] => f
  | f :: r => f ++ ':' :: joinColon r

/-- `endsW l s` holds iff `s` is a suffix of `l`. -/
def endsW (l s : PyStr) : Bool :=
  decide (l.drop (l.length - s.length) = s)

/-- Python 2 `int(s)`: strip surrounding whitespace, allow one optional sign,
then require one or more ASCII digits; anything else raises `ValueError`
(modelled as `none`). -/
def digitsToNat (l : List Char) : Nat :=
  l.foldl (fun a c => a * 10 + (c.toNat - 48)) 0

def pyInt (l : PyStr) : Option Int :=
  match pyStrip l with
  | [] => none
  | c :: r =>
    if c = '+' then
      if r.isEmpty then none
      else if r.all Char.isDigit then some (digitsToNat r : Int) else none
    else if c = '-' then
      if r.isEmpty then none
      else if r.all Char.isDigit then some (-(digitsToNat r : Int)) else none
    else if (c :: r).all Char.isDigit then some (digitsToNat (c :: r) : Int)
    else none

/-- Python `readlines` on the full file text: split after every newline;
every line except possibly the last ends with `'\n'`; the empty text gives
the empty list. -/
def splitNl : List Char → List (List Char)
  | [] => []
  | c :: cs =>
    if c = '\n' then ['\n'] :: splitNl cs
    else
      match splitNl cs with
      | [] => [[c]]
      | l :: ls => (c :: l) :: ls

/-- The lines `readFile` hands to `report`/`fix` for a file text `s`. -/
def toLines (s : String) : List Line := splitNl s.data

/-- `re.search("^#", line)` / `re.match("^#", line)`: the line starts with
`'#'`. -/
def isComment (l : Line) : Bool :=
  match l with
  | c :: _ => c = '#'
  | [] => false

/-- `re.match("^\s*$", line)`: every character of the line is whitespace. -/
def isBlank (l : Line) : Bool := l.all isPySpace

/-- A non-comment, non-blank line (a record the rule classifies). -/
def substantive (l : Line) : Bool := !(isComment l || isBlank l)

/-- `":/sbin/nologin"`. -/
def nologinSuf : PyStr := ":/sbin/nologin".data

/-- `":/dev/null"`. -/
def devnullSuf : PyStr := ":/dev/null".data

/-- `"/sbin/nologin"`, the field value `fix` writes. -/
def nologinField : PyStr := "/sbin/nologin".data

/-- `re.search(":/sbin/nologin$|:/dev/null$", l)`: `l` ends with one of the
two suffixes, optionally followed by one final newline (`$` semantics
without `re.MULTILINE`). -/
def searchBlocked (l : PyStr) : Bool :=
  endsW l nologinSuf || endsW l (nologinSuf ++ ['\n']) ||
  endsW l devnullSuf || endsW l (devnullSuf ++ ['\n'])

/-- `line.strip().split(":")`: the colon-delimited fields of a record. -/
def lineFields (l : Line) : List PyStr := splitColon (pyStrip l)

/-- `templine[2]`: the UID field (guarded by `len(templine) >= 6` in the
source, so the default is never used there). -/
def uidTok (l : Line) : PyStr := (lineFields l).getD 2 []

/-- The source's exemption test `int(templine[2]) >= 500 or templine[2] == "0"`,
evaluated after `int` succeeded with value `n`. -/
def isExemptVal (l : Line) (n : Int) : Bool :=
  n ≥ 500 || uidTok l = ['0']

/-- Exemption as a test of the line alone (defined only when the UID field
parses). -/
def isExempt (l : Line) : Bool :=
  match pyInt (uidTok l) with
  | some n => isExemptVal l n
  | none => false

/-- One iteration of `report`'s loop body (lines 116-136 of the source). -/
inductive RStepRes where
  | ok (keep : Bool)
  | badFormat
  | valueError
deriving DecidableEq

def reportStep (l : Line) : RStepRes :=
  if isComment l || isBlank l then .ok true
  else
    let tl := lineFields l
    if tl.length < 6 then .badFormat
    else
      match pyInt (tl.getD 2 []) with
      | none => .valueError
      | some n =>
        if n ≥ 500 || tl.getD 2 [] = ['0'] then .ok true
        else .ok (searchBlocked l)

/-- Outcome of `report`'s whole loop. -/
inductive RLoopRes where
  | ok (retval : Bool)
  | badFormat
  | valueError
deriving DecidableEq

/-- `report`'s loop: `retval` starts `True` and is cleared by any non-exempt
record whose raw line does not match the end-anchored blocked pattern;
a line with fewer than 6 fields returns immediately with the bad-format
message; an unparsable UID raises `ValueError`, caught only by the
method-level `except Exception` handler. -/
def reportLoop (lines : List Line) (retval : Bool) : RLoopRes :=
  match lines with
  | [] => .ok retval
  | l :: rest =>
    match reportStep l with
    | .ok keep => reportLoop rest (retval && keep)
    | .badFormat => .badFormat
    | .valueError => .valueError

/-- The observable result of one `report()` call. -/
structure ReportResult where
  /-- `self.compliant` after the call; the method returns this value. -/
  compliant : Bool
  /-- `self.rulesuccess` after the call (initially `True`). -/
  rulesuccess : Bool
  /-- whether `self.detailedresults` carries the
  "your /etc/passwd file is in bad format" message. -/
  badFormat : Bool
deriving DecidableEq

/-- `report()` (lines 111-150): `prior` is the value of `self.compliant`
before the call (`False` for a fresh rule object).  On empty content the
`if contents:` guard skips the whole scan and `self.compliant` keeps its
prior value; on `ValueError` the outer `except Exception` handler logs and
falls through to `return self.compliant`, also leaving it at its prior
value. -/
def report (prior : Bool) (lines : List Line) : ReportResult :=
  if lines = [] then ⟨prior, true, false⟩
  else
    match reportLoop lines true with
    | .ok b => ⟨b, true, false⟩
    | .badFormat => ⟨false, false, true⟩
    | .valueError => ⟨prior, true, false⟩

/-- `report()` on the text of the account database. -/
def reportText (prior : Bool) (s : String) : ReportResult :=
  report prior (toLines s)

/-- The file effects `report` performs on the account database: none (the
method only calls `readFile`). -/
def reportWrites : List Unit := []

/-- One iteration of `fix`'s loop body (lines 186-227 of the source). -/
inductive FStepRes where
  | emit (piece : PyStr)
  | badFormat
  | valueError
deriving DecidableEq

/-- Lines 204-208 of the source: append `"/sbin/nologin"` to a 6-field
record, overwrite field 7 of a 7-field record, and leave any other field
count unchanged. -/
def rewriteFields (tl : List PyStr) : List PyStr :=
  if tl.length = 6 then tl ++ [nologinField]
  else if tl.length = 7 then tl.set 6 nologinField
  else tl

def fixStep (l : Line) : FStepRes :=
  if isComment l || isBlank l then .emit l
  else
    let tl := lineFields l
    if tl.length < 6 then .badFormat
    else
      match pyInt (tl.getD 2 []) with
      | none => .valueError
      | some n =>
        if n ≥ 500 || tl.getD 2 [] = ['0'] then .emit l
        else if !searchBlocked (pyStrip l) then
          .emit (joinColon (rewriteFields tl) ++ ['\n'])
        else .emit l

/-- Outcome of `fix`'s whole loop: the accumulated `tempstring`, or an
abort. -/
inductive FLoopRes where
  | ok (tempstring : PyStr)
  | badFormat
  | valueError
deriving DecidableEq

def fixLoop (lines : List Line) (acc : PyStr) : FLoopRes :=
  match lines with
  | [] => .ok acc
  | l :: rest =>
    match fixStep l with
    | .emit p => fixLoop rest (acc ++ p)
    | .badFormat => .badFormat
    | .valueError => .valueError

/-- File-system and change-journal operations `fix` performs, in program
order. -/
inductive Effect where
  /-- `setPerms` on `/etc/passwd` (only when `checkPerms` failed). -/
  | setPermsFix
  /-- `writeFile(tmpfile, tempstring)`. -/
  | writeTemp (content : PyStr)
  /-- `statechglogger.recordchgevent(myid, event)`. -/
  | recordChangeEvent
  /-- `statechglogger.recordfilechange(path, tmpfile, myid)`. -/
  | recordFileChange
  /-- `os.rename(tmpfile, path)`. -/
  | rename
  /-- `os.chown(path, 0, 0)`. -/
  | chown
  /-- `os.chmod(path, 420)`. -/
  | chmod
  /-- `resetsecon(path)`. -/
  | resetsecon
deriving DecidableEq

/-- The observable result of one `fix()` call (with the configuration item
enabled and a fresh rule object). -/
structure FixResult where
  trace : List Effect
  /-- `self.rulesuccess` after the call; the method returns this value. -/
  rulesuccess : Bool
  /-- whether `self.detailedresults` carries the bad-format message. -/
  badFormat : Bool
deriving DecidableEq

/-- `fix()` (lines 154-248): on empty content the `if contents:` guard skips
everything and the method returns `True`.  Otherwise perms are repaired
first if needed (`permsBad`), the loop builds `tempstring` or aborts, and
on success the temp file is written; if that write succeeds (`writeOk`) the
journal entries are recorded, the temp file is renamed over the original,
and ownership, mode and security context are re-applied, in that order. -/
def fixRun (permsBad writeOk : Bool) (lines : List Line) : FixResult :=
  if lines = [] then ⟨[], true, false⟩
  else
    let pre := if permsBad then [Effect.setPermsFix] else []
    match fixLoop lines [] with
    | .ok t =>
      if writeOk then
        ⟨pre ++ [.writeTemp t, .recordChangeEvent, .recordFileChange,
                 .rename, .chown, .chmod, .resetsecon], true, false⟩
      else ⟨pre ++ [.writeTemp t], true, false⟩
    | .badFormat => ⟨pre, false, true⟩
    | .valueError => ⟨pre, false, false⟩

/-- `fix()` on the text of the account database. -/
def fixRunText (permsBad writeOk : Bool) (s : String) : FixResult :=
  fixRun permsBad writeOk (toLines s)

/-- The content of the account database after one `fix()` call that does not
hit an I/O failure: unchanged on empty content or on an abort, otherwise
the accumulated `tempstring` renamed over the original. -/
def fixContentAfter (s : String) : String :=
  if toLines s = [] then s
  else
    match fixLoop (toLines s) [] with
    | .ok t => ⟨t⟩
    | .badFormat => s
    | .valueError => s

/-- A line the scan accepts without aborting: comments and blank lines, and
records with at least 6 fields and an `int`-parsable UID field. -/
def lineOk (l : Line) : Bool :=
  !substantive l ||
    ((lineFields l).length ≥ 6 && (pyInt (uidTok l)).isSome)

/-- A file whose every line the scan accepts ("parses without error"). -/
def wellFormedL (lines : List Line) : Bool := lines.all lineOk

/-- The per-line verdict `report` folds into `retval`: the line is a
comment/blank, or an exempt record, or its raw line matches the blocked
pattern. -/
def lineOkVal (l : Line) : Bool :=
  !substantive l || isExempt l || searchBlocked l

/-- `report`'s compliance condition over the whole content. -/
def codeAllBlocked (lines : List Line) : Bool := lines.all lineOkVal

-- Sanity checks of the embedding on the spec's examples.  Note the first
-- line has 7 fields, so its 7th field (the shell) is overwritten, while a
-- 6-field record gets "/sbin/nologin" appended.
example : fixStep "daemon:x:1:1:daemon:/usr/sbin:/bin/sh\n".data =
    .emit "daemon:x:1:1:daemon:/usr/sbin:/sbin/nologin\n".data := by
  decide

example : fixStep "daemon:x:1:1:daemon:/usr/sbin\n".data =
    .emit "daemon:x:1:1:daemon:/usr/sbin:/sbin/nologin\n".data := by
  decide

example : fixStep "alice:x:1001:1001:Alice:/home/alice:/bin/bash\n".data =
    .emit "alice:x:1001:1001:Alice:/home/alice:/bin/bash\n".data := by
  decide

example : fixStep "root:x:0:0:root:/root:/bin/bash\n".data =
    .emit "root:x:0:0:root:/root:/bin/bash\n".data := by
  decide

example : reportText false "daemon:x:1:1:daemon:/usr/sbin:/sbin/nologin\n" =
    ⟨true, true, false⟩ := by decide

example : reportText false "daemon:x:1:1:daemon:/usr/sbin:/bin/sh\n" =
    ⟨false, true, false⟩ := by decide

example : reportText false "daemon:x:1:1\n" = ⟨false, false, true⟩ := by
  decide

example : toLines "a\nbc\n\nd" = ["a\n".data, "bc\n".data, "\n".data, "d".data] := by
  decide

/-! ### Utility lemmas: suffixes, stripping, splitting, line splitting -/

theorem endsW_iff {l s : PyStr} : endsW l s = true ↔ s <:+ l := by
  unfold endsW
  rw [decide_eq_true_eq]
  constructor
  · intro h
    exact ⟨l.take (l.length - s.length), by
      conv_rhs => rw [← List.take_append_drop (l.length - s.length) l, h]⟩
  · rintro ⟨t, rfl⟩
    have h : (t ++ s).length - s.length = t.length := by
      simp [List.length_append]
    rw [h, List.drop_left]

theorem endsW_append_self (a s : PyStr) : endsW (a ++ s) s = true :=
  endsW_iff.mpr ⟨a, rfl⟩

theorem endsW_refl (s : PyStr) : endsW s s = true :=
  endsW_iff.mpr ⟨[], rfl⟩

theorem dropWhile_suffix (p : Char → Bool) (l : PyStr) : l.dropWhile p <:+ l := by
  induction l with
  | nil => exact ⟨[], rfl⟩
  | cons c cs ih =>
    rw [List.dropWhile_cons]
    by_cases h : p c = true
    · simp only [h, if_true]
      exact ih.trans (List.suffix_cons c cs)
    · rw [if_neg h]

theorem dropWhile_head?_not {p : Char → Bool} {l : PyStr} {c : Char}
    (h : (l.dropWhile p).head? = some c) : p c = false := by
  induction l with
  | nil => simp at h
  | cons a as ih =>
    rw [List.dropWhile_cons] at h
    by_cases ha : p a = true
    · simp only [ha, if_true] at h
      exact ih h
    · rw [if_neg ha] at h
      simp only [List.head?_cons, Option.some.injEq] at h
      subst h
      simpa using ha

theorem dropWhile_eq_self {p : Char → Bool} {l : PyStr}
    (h : ∀ c, l.head? = some c → p c = false) : l.dropWhile p = l := by
  cases l with
  | nil => rfl
  | cons a as =>
    rw [List.dropWhile_cons]
    simp [h a rfl]

theorem rstripC_prefixOf (l : PyStr) : rstripC l <+: l := by
  obtain ⟨t, ht⟩ := dropWhile_suffix isPySpace l.reverse
  refine ⟨t.reverse, ?_⟩
  conv_rhs => rw [← l.reverse_reverse, ← ht]
  simp [rstripC, List.reverse_append]

theorem rstripC_getLast?_not {l : PyStr} {c : Char}
    (h : (rstripC l).getLast? = some c) : isPySpace c = false := by
  rw [rstripC, List.getLast?_reverse] at h
  exact dropWhile_head?_not h

theorem rstripC_eq_self {l : PyStr}
    (h : ∀ c, l.getLast? = some c → isPySpace c = false) : rstripC l = l := by
  rw [rstripC, dropWhile_eq_self, List.reverse_reverse]
  intro c hc
  rw [List.head?_reverse] at hc
  exact h c hc

theorem rstripC_append_space {x : PyStr} {c : Char} (h : isPySpace c = true) :
    rstripC (x ++ [c]) = rstripC x := by
  rw [rstripC, rstripC, List.reverse_append]
  simp [List.dropWhile_cons, h]

theorem pyStrip_append_newline (x : PyStr) :
    pyStrip (x ++ ['\n']) = pyStrip x := by
  rw [pyStrip, pyStrip, List.dropWhile_append]
  by_cases h : (x.dropWhile isPySpace).isEmpty = true
  · simp only [h, if_true]
    rw [List.isEmpty_iff] at h
    rw [h]
    rfl
  · simp only [h, if_false]
    exact rstripC_append_space (by decide)

theorem pyStrip_head?_not {l : PyStr} {c : Char}
    (h : (pyStrip l).head? = some c) : isPySpace c = false := by
  rw [pyStrip] at h
  obtain ⟨t, ht⟩ := rstripC_prefixOf (l.dropWhile isPySpace)
  have hh : (l.dropWhile isPySpace).head? = some c := by
    rw [← ht]
    cases hr : rstripC (l.dropWhile isPySpace) with
    | nil => rw [hr] at h; simp at h
    | cons a as =>
      rw [hr] at h
      simp only [List.head?_cons, Option.some.injEq] at h
      subst h
      simp
  exact dropWhile_head?_not hh

theorem pyStrip_getLast?_not {l : PyStr} {c : Char}
    (h : (pyStrip l).getLast? = some c) : isPySpace c = false :=
  rstripC_getLast?_not h

theorem pyStrip_eq_self {l : PyStr}
    (hh : ∀ c, l.head? = some c → isPySpace c = false)
    (hl : ∀ c, l.getLast? = some c → isPySpace c = false) : pyStrip l = l := by
  rw [pyStrip, dropWhile_eq_self hh]
  exact rstripC_eq_self hl

theorem pyStrip_idem (l : PyStr) : pyStrip (pyStrip l) = pyStrip l :=
  pyStrip_eq_self (fun _ h => pyStrip_head?_not h) (fun _ h => pyStrip_getLast?_not h)

theorem pyStrip_subset (l : PyStr) : pyStrip l ⊆ l := by
  intro c hc
  have h1 : c ∈ l.dropWhile isPySpace := (rstripC_prefixOf _).subset hc
  exact (dropWhile_suffix isPySpace l).subset h1

theorem joinColon_one (f : PyStr) : joinColon [f] = f := rfl

theorem joinColon_cons2 (f g : PyStr) (r : List PyStr) :
    joinColon (f :: g :: r) = f ++ ':' :: joinColon (g :: r) := rfl

theorem splitColon_ne_nil (x : PyStr) : splitColon x ≠ [] := by
  cases x with
  | nil => simp [splitColon]
  | cons c cs =>
    rw [splitColon]
    by_cases h : c = ':'
    · simp [h]
    · rw [if_neg h]
      cases splitColon cs <;> simp

theorem splitColon_single {f : PyStr} (h : ':' ∉ f) : splitColon f = [f] := by
  induction f with
  | nil => rfl
  | cons c cs ih =>
    simp only [List.mem_cons, not_or] at h
    rw [splitColon, if_neg (Ne.symm h.1), ih h.2]

theorem splitColon_append_colon {f : PyStr} (y : PyStr) (h : ':' ∉ f) :
    splitColon (f ++ ':' :: y) = f :: splitColon y := by
  induction f with
  | nil => simp [splitColon]
  | cons c cs ih =>
    simp only [List.mem_cons, not_or] at h
    rw [List.cons_append, splitColon, if_neg (Ne.symm h.1), ih h.2]

theorem joinColon_splitColon (x : PyStr) : joinColon (splitColon x) = x := by
  induction x with
  | nil => rfl
  | cons c cs ih =>
    rw [splitColon]
    by_cases h : c = ':'
    · rw [if_pos h]
      cases hs : splitColon cs with
      | nil => exact absurd hs (splitColon_ne_nil cs)
      | cons f r =>
        rw [hs] at ih
        rw [joinColon_cons2, List.nil_append, ih, h]
    · rw [if_neg h]
      cases hs : splitColon cs with
      | nil => exact absurd hs (splitColon_ne_nil cs)
      | cons f r =>
        rw [hs] at ih
        cases r with
        | nil =>
          rw [joinColon_one] at ih
          rw [joinColon_one, ih]
        | cons f2 r2 =>
          rw [joinColon_cons2, List.cons_append, ← joinColon_cons2, ih]

theorem mem_splitColon_colon_free (x : PyStr) : ∀ f ∈ splitColon x, ':' ∉ f := by
  induction x with
  | nil =>
    intro f hf
    simp only [splitColon, List.mem_singleton] at hf
    simp [hf]
  | cons c cs ih =>
    intro f hf
    rw [splitColon] at hf
    by_cases h : c = ':'
    · rw [if_pos h] at hf
      rcases List.mem_cons.mp hf with rfl | hf
      · simp
      · exact ih f hf
    · rw [if_neg h] at hf
      cases hs : splitColon cs with
      | nil => exact absurd hs (splitColon_ne_nil cs)
      | cons g r =>
        rw [hs] at hf
        rcases List.mem_cons.mp hf with rfl | hf
        · intro hc
          rcases List.mem_cons.mp hc with hc | hc
          · exact h hc.symm
          · exact ih g (hs ▸ List.mem_cons_self g r) hc
        · exact ih f (hs ▸ List.mem_cons_of_mem g hf)

theorem mem_of_mem_splitColon {x : PyStr} {c : Char} :
    ∀ {f : PyStr}, f ∈ splitColon x → c ∈ f → c ∈ x := by
  induction x with
  | nil =>
    intro f hf hc
    simp only [splitColon, List.mem_singleton] at hf
    subst hf
    simp at hc
  | cons a as ih =>
    intro f hf hc
    rw [splitColon] at hf
    by_cases h : a = ':'
    · rw [if_pos h] at hf
      rcases List.mem_cons.mp hf with rfl | hf
      · simp at hc
      · exact List.mem_cons_of_mem _ (ih hf hc)
    · rw [if_neg h] at hf
      cases hs : splitColon as with
      | nil => exact absurd hs (splitColon_ne_nil as)
      | cons g r =>
        rw [hs] at hf
        rcases List.mem_cons.mp hf with rfl | hf
        · rcases List.mem_cons.mp hc with rfl | hc
          · simp
          · exact List.mem_cons_of_mem _ (ih (hs ▸ List.mem_cons_self g r) hc)
        · exact List.mem_cons_of_mem _ (ih (hs ▸ List.mem_cons_of_mem g hf) hc)

theorem splitColon_joinColon {fs : List PyStr} (hne : fs ≠ [])
    (hf : ∀ f ∈ fs, ':' ∉ f) : splitColon (joinColon fs) = fs := by
  induction fs with
  | nil => exact absurd rfl hne
  | cons f r ih =>
    cases r with
    | nil =>
      rw [joinColon_one]
      exact splitColon_single (hf f (List.mem_cons_self f []))
    | cons f2 r2 =>
      rw [joinColon_cons2, splitColon_append_colon _ (hf f (List.mem_cons_self f _))]
      rw [ih (by simp) (fun g hg => hf g (List.mem_cons_of_mem f hg))]

theorem joinColon_append_last {fs : List PyStr} (g : PyStr) (h : fs ≠ []) :
    joinColon (fs ++ [g]) = joinColon fs ++ ':' :: g := by
  induction fs with
  | nil => exact absurd rfl h
  | cons f r ih =>
    cases r with
    | nil => rfl
    | cons f2 r2 =>
      have ih2 := ih (by simp)
      calc joinColon ((f :: f2 :: r2) ++ [g])
          = f ++ ':' :: joinColon ((f2 :: r2) ++ [g]) :=
            joinColon_cons2 f f2 (r2 ++ [g])
        _ = f ++ ':' :: (joinColon (f2 :: r2) ++ ':' :: g) := by rw [ih2]
        _ = joinColon (f :: f2 :: r2) ++ ':' :: g := by
            rw [joinColon_cons2, List.append_assoc, List.cons_append]

theorem mem_joinColon {fs : List PyStr} {c : Char} (h : c ∈ joinColon fs) :
    c = ':' ∨ ∃ f ∈ fs, c ∈ f := by
  induction fs with
  | nil => simp [joinColon] at h
  | cons f r ih =>
    cases r with
    | nil =>
      rw [joinColon_one] at h
      exact Or.inr ⟨f, List.mem_cons_self f [], h⟩
    | cons f2 r2 =>
      rw [joinColon_cons2] at h
      rcases List.mem_append.mp h with h | h
      · exact Or.inr ⟨f, List.mem_cons_self f _, h⟩
      · rcases List.mem_cons.mp h with rfl | h
        · exact Or.inl rfl
        · rcases ih h with h | ⟨g, hg, hc⟩
          · exact Or.inl h
          · exact Or.inr ⟨g, List.mem_cons_of_mem f hg, hc⟩

theorem splitNl_eq_nil_iff {x : List Char} : splitNl x = [] ↔ x = [] := by
  constructor
  · intro h
    cases x with
    | nil => rfl
    | cons c cs =>
      rw [splitNl] at h
      by_cases hc : c = '\n'
      · rw [if_pos hc] at h; simp at h
      · rw [if_neg hc] at h
        cases hs : splitNl cs with
        | nil => rw [hs] at h; simp at h
        | cons l ls => rw [hs] at h; simp at h
  · rintro rfl; rfl

theorem flatten_splitNl (x : List Char) : (splitNl x).flatten = x := by
  induction x with
  | nil => rfl
  | cons c cs ih =>
    rw [splitNl]
    by_cases hc : c = '\n'
    · rw [if_pos hc, List.flatten_cons, ih, hc]
      rfl
    · rw [if_neg hc]
      cases hs : splitNl cs with
      | nil =>
        rw [splitNl_eq_nil_iff.mp hs]
        simp
      | cons l ls =>
        rw [hs] at ih
        rw [List.flatten_cons] at ih ⊢
        rw [List.cons_append, ih]

theorem splitNl_no_inner_newline {x : List Char} :
    ∀ p ∈ splitNl x, p ≠ [] ∧ ∀ c ∈ p.dropLast, c ≠ '\n' := by
  induction x with
  | nil => intro p hp; simp [splitNl] at hp
  | cons c cs ih =>
    intro p hp
    rw [splitNl] at hp
    by_cases hc : c = '\n'
    · rw [if_pos hc] at hp
      rcases List.mem_cons.mp hp with rfl | hp
      · exact ⟨by simp, by simp⟩
      · exact ih p hp
    · rw [if_neg hc] at hp
      cases hs : splitNl cs with
      | nil =>
        rw [hs] at hp
        rcases List.mem_cons.mp hp with rfl | hp
        · exact ⟨by simp, by simp⟩
        · simp at hp
      | cons l ls =>
        rw [hs] at hp
        rcases List.mem_cons.mp hp with rfl | hp
        · have hl := ih l (hs ▸ List.mem_cons_self l ls)
          refine ⟨by simp, ?_⟩
          intro d hd
          cases hll : l with
          | nil => exact absurd hll hl.1
          | cons a as =>
            rw [hll] at hd
            rw [List.dropLast_cons_of_ne_nil (by simp)] at hd
            rcases List.mem_cons.mp hd with rfl | hd
            · exact hc
            · exact hl.2 d (hll ▸ hd)
        · exact ih p (hs ▸ List.mem_cons_of_mem l hp)

/-- Chain discipline of a list of pieces: every piece is nonempty with no
interior newline, and every piece but the last ends with a newline.  The
`readlines` output satisfies it, and concatenating such a chain and
re-splitting recovers exactly the pieces. -/
def ChainOk : List Line → Prop
  | [] => True
  | [p] => p ≠ [] ∧ ∀ c ∈ p.dropLast, c ≠ '\n'
  | p :: q :: rest =>
    ((p ≠ [] ∧ ∀ c ∈ p.dropLast, c ≠ '\n') ∧ p.getLast? = some '\n') ∧
      ChainOk (q :: rest)

theorem splitNl_cons_newline {a : List Char} (x : List Char) (h : '\n' ∉ a) :
    splitNl (a ++ '\n' :: x) = (a ++ ['\n']) :: splitNl x := by
  induction a with
  | nil => simp [splitNl]
  | cons c cs ih =>
    simp only [List.mem_cons, not_or] at h
    rw [List.cons_append, splitNl, if_neg (Ne.symm h.1), ih h.2]
    simp

theorem splitNl_no_newline {p : List Char} (hne : p ≠ []) (h : '\n' ∉ p) :
    splitNl p = [p] := by
  induction p with
  | nil => exact absurd rfl hne
  | cons c cs ih =>
    simp only [List.mem_cons, not_or] at h
    rw [splitNl, if_neg (Ne.symm h.1)]
    cases hcs : cs with
    | nil => rfl
    | cons d ds =>
      rw [← hcs, ih (by rw [hcs]; simp) h.2]

theorem splitNl_flatten {ps : List Line} (h : ChainOk ps) :
    splitNl ps.flatten = ps := by
  induction ps with
  | nil => rfl
  | cons p rest ih =>
    cases rest with
    | nil =>
      obtain ⟨hne, hinner⟩ := h
      rw [List.flatten_cons, List.flatten_nil, List.append_nil]
      by_cases hlast : p.getLast? = some '\n'
      · obtain ⟨q, hq⟩ : ∃ q, p = q ++ ['\n'] := by
          refine ⟨p.dropLast, ?_⟩
          have h1 := List.dropLast_append_getLast hne
          rw [List.getLast?_eq_getLast p hne] at hlast
          have h2 : p.getLast hne = '\n' := by simpa using hlast
          rw [h2] at h1
          exact h1.symm
        rw [hq]
        have hq2 : '\n' ∉ q := by
          intro hmem
          exact hinner '\n' (by rw [hq, List.dropLast_concat]; exact hmem) rfl
        rw [show q ++ ['\n'] = q ++ '\n' :: ([] : List Char) from rfl,
          splitNl_cons_newline _ hq2]
        rfl
      · have hnon : '\n' ∉ p := by
          intro hmem
          have h1 := List.dropLast_append_getLast hne
          rw [← h1] at hmem
          rcases List.mem_append.mp hmem with h2 | h2
          · exact hinner '\n' h2 rfl
          · have h3 := (List.mem_singleton.mp h2).symm
            exact hlast (by rw [List.getLast?_eq_getLast p hne, h3])
        exact splitNl_no_newline hne hnon
    | cons q rest2 =>
      obtain ⟨⟨⟨hne, hinner⟩, hlast⟩, hrest⟩ := h
      obtain ⟨a, ha⟩ : ∃ a, p = a ++ ['\n'] := by
        refine ⟨p.dropLast, ?_⟩
        have h1 := List.dropLast_append_getLast hne
        rw [List.getLast?_eq_getLast p hne] at hlast
        have h2 : p.getLast hne = '\n' := by simpa using hlast
        rw [h2] at h1
        exact h1.symm
      have ha2 : '\n' ∉ a := by
        intro hmem
        exact hinner '\n' (by rw [ha, List.dropLast_concat]; exact hmem) rfl
      rw [List.flatten_cons, ha, List.append_assoc, List.singleton_append,
        splitNl_cons_newline _ ha2, ih hrest, ← ha]

theorem getLast?_cons_of_ne_nil {c : Char} {l : List Char} (h : l ≠ []) :
    (c :: l).getLast? = l.getLast? := by
  cases l with
  | nil => exact absurd rfl h
  | cons a as => exact List.getLast?_cons_cons

theorem chainOk_splitNl (x : List Char) : ChainOk (splitNl x) := by
  induction x with
  | nil => trivial
  | cons c cs ih =>
    rw [splitNl]
    by_cases hc : c = '\n'
    · rw [if_pos hc]
      cases hs : splitNl cs with
      | nil => simp [ChainOk]
      | cons l ls =>
        rw [hs] at ih
        exact ⟨⟨⟨by simp, by simp⟩, by simp⟩, ih⟩
    · rw [if_neg hc]
      cases hs : splitNl cs with
      | nil => simp [ChainOk]
      | cons l ls =>
        rw [hs] at ih
        have hl := splitNl_no_inner_newline l (hs ▸ List.mem_cons_self l ls)
        have hinner : ∀ d ∈ (c :: l).dropLast, d ≠ '\n' := by
          intro d hd
          rw [List.dropLast_cons_of_ne_nil hl.1] at hd
          rcases List.mem_cons.mp hd with rfl | hd
          · exact hc
          · exact hl.2 d hd
        cases ls with
        | nil => exact ⟨by simp, hinner⟩
        | cons q ls2 =>
          obtain ⟨⟨_, hlast⟩, hrest⟩ := ih
          exact ⟨⟨⟨by simp, hinner⟩, by rw [getLast?_cons_of_ne_nil hl.1]; exact hlast⟩,
            hrest⟩

/-! ### Loop lemmas -/

theorem fixLoop_acc (lines : List Line) (acc : PyStr) :
    fixLoop lines acc =
      match fixLoop lines [] with
      | .ok t => .ok (acc ++ t)
      | r => r := by
  induction lines generalizing acc with
  | nil => simp [fixLoop]
  | cons l rest ih =>
    cases hstep : fixStep l with
    | emit p =>
      simp only [fixLoop, hstep, List.nil_append]
      rw [ih (acc ++ p), ih p]
      cases fixLoop rest [] <;> simp [List.append_assoc]
    | badFormat => simp only [fixLoop, hstep]
    | valueError => simp only [fixLoop, hstep]

theorem fixLoop_ok_append {lines : List Line} {acc t : PyStr}
    (h : fixLoop lines acc = .ok t) :
    ∃ u, t = acc ++ u ∧ fixLoop lines [] = .ok u := by
  rw [fixLoop_acc] at h
  cases hr : fixLoop lines [] with
  | ok u =>
    rw [hr] at h
    simp only [FLoopRes.ok.injEq] at h
    exact ⟨u, h.symm, rfl⟩
  | badFormat => rw [hr] at h; simp at h
  | valueError => rw [hr] at h; simp at h

/-- The relation between an input line and the piece `fix` emits for it. -/
def EmitsTo (l p : Line) : Prop := fixStep l = .emit p

theorem fixLoop_ok_iff {lines : List Line} {t : PyStr} :
    fixLoop lines [] = .ok t ↔
      ∃ ps, List.Forall₂ EmitsTo lines ps ∧ t = ps.flatten := by
  constructor
  · intro h
    induction lines generalizing t with
    | nil =>
      refine ⟨[], List.Forall₂.nil, ?_⟩
      simp only [fixLoop, FLoopRes.ok.injEq] at h
      simp [← h]
    | cons l rest ih =>
      rw [fixLoop] at h
      cases hstep : fixStep l with
      | emit p =>
        rw [hstep] at h
        obtain ⟨u, rfl, hu⟩ := fixLoop_ok_append h
        obtain ⟨ps, hps, rfl⟩ := ih hu
        exact ⟨p :: ps, List.Forall₂.cons hstep hps, by simp⟩
      | badFormat => rw [hstep] at h; exact absurd h (by simp)
      | valueError => rw [hstep] at h; exact absurd h (by simp)
  · rintro ⟨ps, hps, rfl⟩
    induction hps with
    | nil => rfl
    | cons hlp hrest ih =>
      have hstep : fixStep _ = FStepRes.emit _ := hlp
      simp only [fixLoop, hstep, List.nil_append]
      rw [fixLoop_acc, ih]
      simp

theorem reportLoop_acc (lines : List Line) (r b : Bool) :
    reportLoop lines (r && b) =
      match reportLoop lines b with
      | .ok v => .ok (r && v)
      | e => e := by
  induction lines generalizing b with
  | nil => simp [reportLoop]
  | cons l rest ih =>
    cases hstep : reportStep l with
    | ok keep =>
      simp only [reportLoop, hstep]
      rw [Bool.and_assoc, ih (b && keep)]
    | badFormat => simp only [reportLoop, hstep]
    | valueError => simp only [reportLoop, hstep]

/-! ### Step characterization lemmas -/

theorem substantive_false_iff {l : Line} :
    substantive l = false ↔ (isComment l || isBlank l) = true := by
  rw [substantive]
  cases isComment l || isBlank l <;> simp

theorem substantive_true_not {l : Line} (hsub : substantive l = true) :
    ¬(isComment l || isBlank l) = true := by
  intro hcb
  rw [substantive, hcb] at hsub
  simp at hsub

theorem fixStep_not_substantive {l : Line} (h : substantive l = false) :
    fixStep l = .emit l := by
  rw [fixStep, if_pos (substantive_false_iff.mp h)]

theorem reportStep_not_substantive {l : Line} (h : substantive l = false) :
    reportStep l = .ok true := by
  rw [reportStep, if_pos (substantive_false_iff.mp h)]

theorem fixStep_exempt {l : Line} {n : Int}
    (hlen : 6 ≤ (lineFields l).length)
    (hn : pyInt (uidTok l) = some n)
    (hex : isExemptVal l n = true) :
    fixStep l = .emit l := by
  rw [fixStep]
  by_cases hcb : (isComment l || isBlank l) = true
  · rw [if_pos hcb]
  · rw [if_neg hcb, if_neg (show ¬(lineFields l).length < 6 by omega)]
    have hn2 : pyInt ((lineFields l).getD 2 []) = some n := hn
    have hex2 : (decide (n ≥ 500) || decide ((lineFields l).getD 2 [] = ['0'])) = true :=
      hex
    simp only [hn2]
    rw [if_pos hex2]

theorem reportStep_exempt {l : Line} {n : Int}
    (hlen : 6 ≤ (lineFields l).length)
    (hn : pyInt (uidTok l) = some n)
    (hex : isExemptVal l n = true) :
    reportStep l = .ok true := by
  rw [reportStep]
  by_cases hcb : (isComment l || isBlank l) = true
  · rw [if_pos hcb]
  · rw [if_neg hcb, if_neg (show ¬(lineFields l).length < 6 by omega)]
    have hn2 : pyInt ((lineFields l).getD 2 []) = some n := hn
    have hex2 : (decide (n ≥ 500) || decide ((lineFields l).getD 2 [] = ['0'])) = true :=
      hex
    simp only [hn2]
    rw [if_pos hex2]

theorem fixStep_rewrite {l : Line} {n : Int}
    (hsub : substantive l = true)
    (hlen : 6 ≤ (lineFields l).length)
    (hn : pyInt (uidTok l) = some n)
    (hex : isExemptVal l n = false)
    (hnb : searchBlocked (pyStrip l) = false) :
    fixStep l = .emit (joinColon (rewriteFields (lineFields l)) ++ ['\n']) := by
  rw [fixStep]
  rw [if_neg (substantive_true_not hsub),
    if_neg (show ¬(lineFields l).length < 6 by omega)]
  have hn2 : pyInt ((lineFields l).getD 2 []) = some n := hn
  have hex2 : (decide (n ≥ 500) || decide ((lineFields l).getD 2 [] = ['0'])) = false :=
    hex
  simp only [hn2]
  rw [if_neg (show ¬_ = true by rw [hex2]; simp), if_pos (show _ = true by rw [hnb]; rfl)]

theorem reportStep_check {l : Line} {n : Int}
    (hsub : substantive l = true)
    (hlen : 6 ≤ (lineFields l).length)
    (hn : pyInt (uidTok l) = some n)
    (hex : isExemptVal l n = false) :
    reportStep l = .ok (searchBlocked l) := by
  rw [reportStep]
  rw [if_neg (substantive_true_not hsub),
    if_neg (show ¬(lineFields l).length < 6 by omega)]
  have hn2 : pyInt ((lineFields l).getD 2 []) = some n := hn
  have hex2 : (decide (n ≥ 500) || decide ((lineFields l).getD 2 [] = ['0'])) = false :=
    hex
  simp only [hn2]
  rw [if_neg (show ¬_ = true by rw [hex2]; simp)]

theorem fixStep_blocked {l : Line} {n : Int}
    (hlen : 6 ≤ (lineFields l).length)
    (hn : pyInt (uidTok l) = some n)
    (hb : searchBlocked (pyStrip l) = true) :
    fixStep l = .emit l := by
  rw [fixStep]
  by_cases hcb : (isComment l || isBlank l) = true
  · rw [if_pos hcb]
  · rw [if_neg hcb, if_neg (show ¬(lineFields l).length < 6 by omega)]
    have hn2 : pyInt ((lineFields l).getD 2 []) = some n := hn
    simp only [hn2]
    by_cases hex : (decide (n ≥ 500) || decide ((lineFields l).getD 2 [] = ['0'])) = true
    · rw [if_pos hex]
    · rw [if_neg hex, if_neg (show ¬_ = true by simp [hb])]

theorem fixStep_badFormat {l : Line}
    (hsub : substantive l = true) (hlen : (lineFields l).length < 6) :
    fixStep l = .badFormat := by
  rw [fixStep, if_neg (substantive_true_not hsub), if_pos hlen]

theorem reportStep_badFormat {l : Line}
    (hsub : substantive l = true) (hlen : (lineFields l).length < 6) :
    reportStep l = .badFormat := by
  rw [reportStep, if_neg (substantive_true_not hsub), if_pos hlen]

theorem fixStep_valueError {l : Line}
    (hsub : substantive l = true) (hlen : 6 ≤ (lineFields l).length)
    (hn : pyInt (uidTok l) = none) :
    fixStep l = .valueError := by
  rw [fixStep, if_neg (substantive_true_not hsub),
    if_neg (show ¬(lineFields l).length < 6 by omega)]
  have hn2 : pyInt ((lineFields l).getD 2 []) = none := hn
  simp only [hn2]

theorem reportStep_valueError {l : Line}
    (hsub : substantive l = true) (hlen : 6 ≤ (lineFields l).length)
    (hn : pyInt (uidTok l) = none) :
    reportStep l = .valueError := by
  rw [reportStep, if_neg (substantive_true_not hsub),
    if_neg (show ¬(lineFields l).length < 6 by omega)]
  have hn2 : pyInt ((lineFields l).getD 2 []) = none := hn
  simp only [hn2]

theorem isExempt_of_some {l : Line} {n : Int} (hn : pyInt (uidTok l) = some n) :
    isExempt l = isExemptVal l n := by
  rw [isExempt, hn]

/-- What one `fix` loop iteration can emit, by the case it went through. -/
theorem fixStep_cases {l p : Line} (h : fixStep l = .emit p) :
    (substantive l = false ∧ p = l) ∨
    (substantive l = true ∧ 6 ≤ (lineFields l).length ∧
      ∃ n, pyInt (uidTok l) = some n ∧
        ((isExemptVal l n = true ∧ p = l) ∨
         (isExemptVal l n = false ∧ searchBlocked (pyStrip l) = true ∧ p = l) ∨
         (isExemptVal l n = false ∧ searchBlocked (pyStrip l) = false ∧
           p = joinColon (rewriteFields (lineFields l)) ++ ['\n']))) := by
  by_cases hsub : substantive l = true
  · right
    refine ⟨hsub, ?_⟩
    by_cases hlen : (lineFields l).length < 6
    · rw [fixStep_badFormat hsub hlen] at h
      exact absurd h (by simp)
    · refine ⟨by omega, ?_⟩
      cases hn : pyInt (uidTok l) with
      | none =>
        rw [fixStep_valueError hsub (by omega) hn] at h
        exact absurd h (by simp)
      | some n =>
        refine ⟨n, rfl, ?_⟩
        by_cases hex : isExemptVal l n = true
        · rw [fixStep_exempt (by omega) hn hex] at h
          simp only [FStepRes.emit.injEq] at h
          exact Or.inl ⟨hex, h.symm⟩
        · have hex2 : isExemptVal l n = false := by simpa using hex
          by_cases hb : searchBlocked (pyStrip l) = true
          · rw [fixStep_blocked (by omega) hn hb] at h
            simp only [FStepRes.emit.injEq] at h
            exact Or.inr (Or.inl ⟨hex2, hb, h.symm⟩)
          · have hb2 : searchBlocked (pyStrip l) = false := by simpa using hb
            rw [fixStep_rewrite hsub (by omega) hn hex2 hb2] at h
            simp only [FStepRes.emit.injEq] at h
            exact Or.inr (Or.inr ⟨hex2, hb2, h.symm⟩)
  · left
    have hsub2 : substantive l = false := by simpa using hsub
    refine ⟨hsub2, ?_⟩
    rw [fixStep_not_substantive hsub2] at h
    simp only [FStepRes.emit.injEq] at h
    exact h.symm

theorem fixStep_emit_lineOk {l p : Line} (h : fixStep l = .emit p) :
    lineOk l = true := by
  rcases fixStep_cases h with ⟨hsub, _⟩ | ⟨hsub, hlen, n, hn, _⟩
  · simp [lineOk, hsub]
  · simp [lineOk, hsub, hlen, hn]

theorem lineOk_parts {l : Line} (h : lineOk l = true) (hsub : substantive l = true) :
    6 ≤ (lineFields l).length ∧ ∃ n, pyInt (uidTok l) = some n := by
  rw [lineOk, hsub] at h
  simp only [Bool.not_true, Bool.false_or, Bool.and_eq_true, decide_eq_true_eq,
    Option.isSome_iff_exists] at h
  exact ⟨h.1, h.2⟩

theorem reportStep_wf {l : Line} (h : lineOk l = true) :
    reportStep l = .ok (lineOkVal l) := by
  by_cases hsub : substantive l = true
  · obtain ⟨hlen, n, hn⟩ := lineOk_parts h hsub
    by_cases hex : isExemptVal l n = true
    · rw [reportStep_exempt hlen hn hex]
      simp [lineOkVal, hsub, isExempt_of_some hn, hex]
    · have hex2 : isExemptVal l n = false := by simpa using hex
      rw [reportStep_check hsub hlen hn hex2]
      simp [lineOkVal, hsub, isExempt_of_some hn, hex2]
  · have hsub2 : substantive l = false := by simpa using hsub
    rw [reportStep_not_substantive hsub2]
    simp [lineOkVal, hsub2]

theorem reportLoop_wf {lines : List Line} (h : ∀ l ∈ lines, lineOk l = true)
    (r : Bool) : reportLoop lines r = .ok (r && codeAllBlocked lines) := by
  induction lines generalizing r with
  | nil => simp [reportLoop, codeAllBlocked]
  | cons l rest ih =>
    have hstep := reportStep_wf (h l (List.mem_cons_self l rest))
    simp only [reportLoop, hstep]
    rw [ih (fun x hx => h x (List.mem_cons_of_mem l hx)) (r && lineOkVal l)]
    simp [codeAllBlocked, List.all_cons, Bool.and_assoc]

theorem report_wf {lines : List Line} (hwf : wellFormedL lines = true)
    (hne : lines ≠ []) (prior : Bool) :
    report prior lines = ⟨codeAllBlocked lines, true, false⟩ := by
  rw [report, if_neg hne,
    reportLoop_wf (List.all_eq_true.mp hwf) true]
  simp

/-! ### Interaction of the blocked-pattern check with stripping -/

theorem bor_elim {a b : Bool} (h : (a || b) = true) : a = true ∨ b = true := by
  cases a with
  | true => exact Or.inl rfl
  | false => exact Or.inr (by simpa using h)

theorem forall_head_not_space {s : PyStr}
    (h : (s.head?.map isPySpace).getD false = false) :
    ∀ c, s.head? = some c → isPySpace c = false := by
  intro c hc
  rw [hc] at h
  simpa using h

theorem forall_getLast_not_space {s : PyStr}
    (h : (s.getLast?.map isPySpace).getD false = false) :
    ∀ c, s.getLast? = some c → isPySpace c = false := by
  intro c hc
  rw [hc] at h
  simpa using h

theorem suffix_dropWhile {s l : PyStr}
    (hhead : ∀ c, s.head? = some c → isPySpace c = false)
    (h : s <:+ l) : s <:+ l.dropWhile isPySpace := by
  obtain ⟨a, rfl⟩ := h
  rw [List.dropWhile_append]
  by_cases he : (a.dropWhile isPySpace).isEmpty = true
  · rw [if_pos he, dropWhile_eq_self hhead]
  · rw [if_neg he]
    exact List.suffix_append _ s

theorem suffix_rstripC {s l : PyStr} (hs : s ≠ [])
    (hlast : ∀ c, s.getLast? = some c → isPySpace c = false)
    (h : s <:+ l) : s <:+ rstripC l := by
  obtain ⟨a, rfl⟩ := h
  have hself : ∀ c, (a ++ s).getLast? = some c → isPySpace c = false := by
    intro c hc
    rw [List.getLast?_append] at hc
    cases hgs : s.getLast? with
    | none => exact absurd (List.getLast?_eq_none_iff.mp hgs) hs
    | some d =>
      rw [hgs] at hc
      simp only [Option.or_some, Option.some.injEq] at hc
      subst hc
      exact hlast d hgs
  rw [rstripC_eq_self hself]
  exact List.suffix_append a s

theorem suffix_pyStrip {s l : PyStr} (hs : s ≠ [])
    (hhead : ∀ c, s.head? = some c → isPySpace c = false)
    (hlast : ∀ c, s.getLast? = some c → isPySpace c = false)
    (h : s <:+ l) : s <:+ pyStrip l :=
  suffix_rstripC hs hlast (suffix_dropWhile hhead h)

theorem nologinSuf_strip_facts :
    nologinSuf ≠ [] ∧
    (nologinSuf.head?.map isPySpace).getD false = false ∧
    (nologinSuf.getLast?.map isPySpace).getD false = false := by decide

theorem devnullSuf_strip_facts :
    devnullSuf ≠ [] ∧
    (devnullSuf.head?.map isPySpace).getD false = false ∧
    (devnullSuf.getLast?.map isPySpace).getD false = false := by decide

theorem searchBlocked_strip_of_raw {l : PyStr} (h : searchBlocked l = true) :
    searchBlocked (pyStrip l) = true := by
  rw [searchBlocked] at h ⊢
  have hnol := nologinSuf_strip_facts
  have hdev := devnullSuf_strip_facts
  rcases bor_elim h with h1 | h4
  rcases bor_elim h1 with h2 | h3
  rcases bor_elim h2 with ha | hb
  · have := suffix_pyStrip hnol.1 (forall_head_not_space hnol.2.1)
      (forall_getLast_not_space hnol.2.2) (endsW_iff.mp ha)
    simp [endsW_iff.mpr this]
  · obtain ⟨a, ha2⟩ := endsW_iff.mp hb
    rw [← List.append_assoc] at ha2
    have hstrip : pyStrip l = pyStrip (a ++ nologinSuf) := by
      rw [← ha2, pyStrip_append_newline]
    have : nologinSuf <:+ pyStrip (a ++ nologinSuf) :=
      suffix_pyStrip hnol.1 (forall_head_not_space hnol.2.1)
        (forall_getLast_not_space hnol.2.2) (List.suffix_append a nologinSuf)
    rw [← hstrip] at this
    simp [endsW_iff.mpr this]
  · have := suffix_pyStrip hdev.1 (forall_head_not_space hdev.2.1)
      (forall_getLast_not_space hdev.2.2) (endsW_iff.mp h3)
    simp [endsW_iff.mpr this]
  · obtain ⟨a, ha2⟩ := endsW_iff.mp h4
    rw [← List.append_assoc] at ha2
    have hstrip : pyStrip l = pyStrip (a ++ devnullSuf) := by
      rw [← ha2, pyStrip_append_newline]
    have : devnullSuf <:+ pyStrip (a ++ devnullSuf) :=
      suffix_pyStrip hdev.1 (forall_head_not_space hdev.2.1)
        (forall_getLast_not_space hdev.2.2) (List.suffix_append a devnullSuf)
    rw [← hstrip] at this
    simp [endsW_iff.mpr this]

/-! ### Copy and error propagation through the loops -/

theorem fixStep_copy {l : Line} (h1 : lineOk l = true)
    (h2 : substantive l = true → (isExempt l || searchBlocked l) = true) :
    fixStep l = .emit l := by
  by_cases hsub : substantive l = true
  · obtain ⟨hlen, n, hn⟩ := lineOk_parts h1 hsub
    rcases bor_elim (h2 hsub) with hex | hb
    · rw [isExempt_of_some hn] at hex
      exact fixStep_exempt hlen hn hex
    · exact fixStep_blocked hlen hn (searchBlocked_strip_of_raw hb)
  · exact fixStep_not_substantive (by simpa using hsub)

theorem fixStep_emit_of_lineOk {l : Line} (h : lineOk l = true) :
    ∃ p, fixStep l = .emit p := by
  by_cases hsub : substantive l = true
  · obtain ⟨hlen, n, hn⟩ := lineOk_parts h hsub
    by_cases hex : isExemptVal l n = true
    · exact ⟨l, fixStep_exempt hlen hn hex⟩
    · have hex2 : isExemptVal l n = false := by simpa using hex
      by_cases hb : searchBlocked (pyStrip l) = true
      · exact ⟨l, fixStep_blocked hlen hn hb⟩
      · exact ⟨_, fixStep_rewrite hsub hlen hn hex2 (by simpa using hb)⟩
  · exact ⟨l, fixStep_not_substantive (by simpa using hsub)⟩

theorem fixLoop_copy {lines : List Line}
    (h : ∀ l ∈ lines, fixStep l = .emit l) (acc : PyStr) :
    fixLoop lines acc = .ok (acc ++ lines.flatten) := by
  induction lines generalizing acc with
  | nil => simp [fixLoop]
  | cons l rest ih =>
    simp only [fixLoop, h l (List.mem_cons_self l rest)]
    rw [ih (fun x hx => h x (List.mem_cons_of_mem l hx)) (acc ++ l)]
    simp

theorem reportLoop_not_ok {lines : List Line}
    (h : ∃ l ∈ lines, substantive l = true ∧ 6 ≤ (lineFields l).length ∧
      pyInt (uidTok l) = none) (r : Bool) :
    reportLoop lines r = .badFormat ∨ reportLoop lines r = .valueError := by
  induction lines generalizing r with
  | nil => simp at h
  | cons l rest ih =>
    cases hstep : reportStep l with
    | ok keep =>
      simp only [reportLoop, hstep]
      apply ih
      obtain ⟨l2, hmem, hl2⟩ := h
      rcases List.mem_cons.mp hmem with rfl | hmem2
      · rw [reportStep_valueError hl2.1 hl2.2.1 hl2.2.2] at hstep
        exact absurd hstep (by simp)
      · exact ⟨l2, hmem2, hl2⟩
    | badFormat => simp [reportLoop, hstep]
    | valueError => simp [reportLoop, hstep]

theorem fixLoop_not_ok {lines : List Line}
    (h : ∃ l ∈ lines, substantive l = true ∧ 6 ≤ (lineFields l).length ∧
      pyInt (uidTok l) = none) (acc : PyStr) :
    fixLoop lines acc = .badFormat ∨ fixLoop lines acc = .valueError := by
  induction lines generalizing acc with
  | nil => simp at h
  | cons l rest ih =>
    cases hstep : fixStep l with
    | emit p =>
      simp only [fixLoop, hstep]
      apply ih
      obtain ⟨l2, hmem, hl2⟩ := h
      rcases List.mem_cons.mp hmem with rfl | hmem2
      · rw [fixStep_valueError hl2.1 hl2.2.1 hl2.2.2] at hstep
        exact absurd hstep (by simp)
      · exact ⟨l2, hmem2, hl2⟩
    | badFormat => simp [fixLoop, hstep]
    | valueError => simp [fixLoop, hstep]

theorem reportLoop_prefix_badFormat {pre : List Line} {bad : Line}
    (post : List Line) (hp : ∀ l ∈ pre, lineOk l = true)
    (hb : substantive bad = true) (hlen : (lineFields bad).length < 6)
    (r : Bool) : reportLoop (pre ++ bad :: post) r = .badFormat := by
  induction pre generalizing r with
  | nil => simp only [List.nil_append, reportLoop, reportStep_badFormat hb hlen]
  | cons l rest ih =>
    have hstep := reportStep_wf (hp l (List.mem_cons_self l rest))
    simp only [List.cons_append, reportLoop, hstep]
    exact ih (fun x hx => hp x (List.mem_cons_of_mem l hx)) _

theorem fixLoop_prefix_badFormat {pre : List Line} {bad : Line}
    (post : List Line) (hp : ∀ l ∈ pre, lineOk l = true)
    (hb : substantive bad = true) (hlen : (lineFields bad).length < 6)
    (acc : PyStr) : fixLoop (pre ++ bad :: post) acc = .badFormat := by
  induction pre generalizing acc with
  | nil => simp only [List.nil_append, fixLoop, fixStep_badFormat hb hlen]
  | cons l rest ih =>
    obtain ⟨p, hstep⟩ := fixStep_emit_of_lineOk (hp l (List.mem_cons_self l rest))
    simp only [List.cons_append, fixLoop, hstep]
    exact ih (fun x hx => hp x (List.mem_cons_of_mem l hx)) _

/-! ### The rewritten line and its reprocessing -/

theorem nologinSuf_cons : nologinSuf = ':' :: nologinField := by decide

theorem head_good_of_append {X W : PyStr}
    (h : ∀ c, (X ++ W).head? = some c → isPySpace c = false) :
    ∀ c, X.head? = some c → isPySpace c = false := by
  intro c hc
  apply h
  rw [List.head?_append, hc]
  rfl

theorem head_not_space_append_colon {X W : PyStr}
    (h : ∀ c, X.head? = some c → isPySpace c = false) :
    ∀ c, (X ++ ':' :: W).head? = some c → isPySpace c = false := by
  intro c hc
  cases X with
  | nil =>
    simp only [List.nil_append, List.head?_cons, Option.some.injEq] at hc
    subst hc
    rfl
  | cons x xs =>
    simp only [List.cons_append, List.head?_cons, Option.some.injEq] at hc
    subst hc
    exact h _ rfl

theorem pyStrip_ne_nil_of_fields {l : Line} (h : 6 ≤ (lineFields l).length) :
    pyStrip l ≠ [] := by
  intro h0
  rw [lineFields, h0] at h
  simp [splitColon] at h

theorem rewriteFields_ne_nil {tl : List PyStr} (h : 6 ≤ tl.length) :
    rewriteFields tl ≠ [] := by
  rw [rewriteFields]
  by_cases h6 : tl.length = 6
  · rw [if_pos h6]; simp
  · rw [if_neg h6]
    by_cases h7 : tl.length = 7
    · rw [if_pos h7]
      intro h0
      have := congrArg List.length h0
      rw [List.length_set, h7] at this
      simp at this
    · rw [if_neg h7]
      intro h0
      rw [h0] at h
      simp at h

theorem rewriteFields_len_ge {tl : List PyStr} (h : 6 ≤ tl.length) :
    6 ≤ (rewriteFields tl).length := by
  rw [rewriteFields]
  by_cases h6 : tl.length = 6
  · rw [if_pos h6]; simp [List.length_append]; omega
  · rw [if_neg h6]
    by_cases h7 : tl.length = 7
    · rw [if_pos h7, List.length_set]; omega
    · rw [if_neg h7]; omega

theorem rewriteFields_eq_self_of_ge8 {tl : List PyStr} (h : 8 ≤ tl.length) :
    rewriteFields tl = tl := by
  rw [rewriteFields, if_neg (by omega), if_neg (by omega)]

theorem getD2_rewriteFields {tl : List PyStr} (_h : 6 ≤ tl.length) :
    (rewriteFields tl).getD 2 [] = tl.getD 2 [] := by
  rw [rewriteFields]
  by_cases h6 : tl.length = 6
  · rw [if_pos h6, List.getD_eq_getElem?_getD, List.getD_eq_getElem?_getD,
      List.getElem?_append_left (by omega)]
  · rw [if_neg h6]
    by_cases h7 : tl.length = 7
    · rw [if_pos h7, List.getD_eq_getElem?_getD, List.getD_eq_getElem?_getD,
        List.getElem?_set_ne (by omega)]
    · rw [if_neg h7]

theorem rewriteFields_mem {tl : List PyStr} {f : PyStr}
    (hf : f ∈ rewriteFields tl) : f ∈ tl ∨ f = nologinField := by
  rw [rewriteFields] at hf
  by_cases h6 : tl.length = 6
  · rw [if_pos h6] at hf
    rcases List.mem_append.mp hf with h | h
    · exact Or.inl h
    · exact Or.inr (List.mem_singleton.mp h)
  · rw [if_neg h6] at hf
    by_cases h7 : tl.length = 7
    · rw [if_pos h7] at hf
      exact List.mem_or_eq_of_mem_set hf
    · rw [if_neg h7] at hf
      exact Or.inl hf

theorem rewriteFields_colon_free {l : Line} {f : PyStr}
    (hf : f ∈ rewriteFields (lineFields l)) : ':' ∉ f := by
  rcases rewriteFields_mem hf with h | rfl
  · exact mem_splitColon_colon_free (pyStrip l) f h
  · decide

theorem isExemptVal_congr {p l : Line} {n : Int} (h : uidTok p = uidTok l) :
    isExemptVal p n = isExemptVal l n := by
  rw [isExemptVal, isExemptVal, h]

theorem eq_dropLast_append_getLast {l : List Char} {c : Char} (hne : l ≠ [])
    (h : l.getLast? = some c) : l = l.dropLast ++ [c] := by
  have h1 := List.dropLast_append_getLast hne
  rw [List.getLast?_eq_getLast l hne] at h
  have h2 : l.getLast hne = c := by simpa using h
  rw [h2] at h1
  exact h1.symm

theorem pyStrip_no_newline {l : Line} (hne : l ≠ [])
    (hinner : ∀ c ∈ l.dropLast, c ≠ '\n') : '\n' ∉ pyStrip l := by
  by_cases hlast : l.getLast? = some '\n'
  · have hd := eq_dropLast_append_getLast hne hlast
    rw [hd, pyStrip_append_newline]
    intro hmem
    exact hinner '\n' (pyStrip_subset _ hmem) rfl
  · intro hmem
    have hsub := pyStrip_subset _ hmem
    have h1 := List.dropLast_append_getLast hne
    rw [← h1] at hsub
    rcases List.mem_append.mp hsub with h2 | h2
    · exact hinner '\n' h2 rfl
    · have h3 := (List.mem_singleton.mp h2).symm
      exact hlast (by rw [List.getLast?_eq_getLast l hne, h3])

/-- The shape of the body `":".join(templine)` of a rewritten record. -/
theorem body_shape {l : Line} (hlen : 6 ≤ (lineFields l).length) :
    (∃ X, joinColon (rewriteFields (lineFields l)) = X ++ nologinSuf ∧
      (∀ c, X.head? = some c → isPySpace c = false)) ∨
    (joinColon (rewriteFields (lineFields l)) = pyStrip l ∧
      8 ≤ (lineFields l).length) := by
  have hne : lineFields l ≠ [] := by
    intro h0
    rw [h0] at hlen
    simp at hlen
  have hjc : joinColon (lineFields l) = pyStrip l := joinColon_splitColon (pyStrip l)
  have hheadps : ∀ c, (pyStrip l).head? = some c → isPySpace c = false :=
    fun _ hc => pyStrip_head?_not hc
  by_cases h6 : (lineFields l).length = 6
  · left
    refine ⟨joinColon (lineFields l), ?_, by rw [hjc]; exact hheadps⟩
    rw [rewriteFields, if_pos h6, joinColon_append_last _ hne, nologinSuf_cons]
  · by_cases h7 : (lineFields l).length = 7
    · left
      have hset : (lineFields l).set 6 nologinField =
          (lineFields l).take 6 ++ [nologinField] := by
        rw [List.set_eq_take_append_cons_drop, if_pos (by omega),
          List.drop_eq_nil_of_le (by omega)]
      have htake6ne : (lineFields l).take 6 ≠ [] := by
        cases hl : lineFields l with
        | nil => rw [hl] at h7; simp at h7
        | cons a rest =>
          intro h0
          rw [show List.take 6 (a :: rest) = a :: List.take 5 rest from rfl] at h0
          simp at h0
      obtain ⟨g, hg⟩ : ∃ g, (lineFields l).drop 6 = [g] :=
        List.length_eq_one.mp (by rw [List.length_drop]; omega)
      refine ⟨joinColon ((lineFields l).take 6), ?_, ?_⟩
      · rw [rewriteFields, if_neg h6, if_pos h7, hset,
          joinColon_append_last _ htake6ne, nologinSuf_cons]
      · apply head_good_of_append (W := ':' :: g)
        have hdecomp : joinColon ((lineFields l).take 6) ++ ':' :: g = pyStrip l := by
          rw [← hjc]
          conv_rhs => rw [← List.take_append_drop 6 (lineFields l), hg]
          rw [joinColon_append_last _ htake6ne]
        rw [hdecomp]
        exact hheadps
    · right
      refine ⟨?_, by omega⟩
      rw [rewriteFields, if_neg h6, if_neg h7]
      exact hjc

theorem nologinSuf_getLast : nologinSuf.getLast? = some 'n' := by decide

/-- Re-running one `fix` iteration on a piece it emitted reproduces the
piece: comments, blanks, exempt and blocked lines are copied verbatim, and
a rewritten record is already blocked (6- and 7-field case) or is re-joined
to itself (8-or-more-field case). -/
theorem fixStep_fixpoint {l p : Line} (h : fixStep l = .emit p) :
    fixStep p = .emit p := by
  rcases fixStep_cases h with ⟨_, rfl⟩ | ⟨hsub, hlen, n, hn, hcase⟩
  · exact h
  rcases hcase with ⟨_, rfl⟩ | ⟨_, _, rfl⟩ | ⟨hex, hnb, rfl⟩
  · exact h
  · exact h
  have hcf : ∀ f ∈ rewriteFields (lineFields l), ':' ∉ f :=
    fun f hf => rewriteFields_colon_free hf
  have hrwne : rewriteFields (lineFields l) ≠ [] := rewriteFields_ne_nil hlen
  have hsplit : splitColon (joinColon (rewriteFields (lineFields l))) =
      rewriteFields (lineFields l) := splitColon_joinColon hrwne hcf
  rcases body_shape hlen with ⟨X, hX, hXhead⟩ | ⟨heq, h8⟩
  · -- 6- or 7-field case: the body ends in ":/sbin/nologin"
    have hbhead : ∀ c, (joinColon (rewriteFields (lineFields l))).head? = some c →
        isPySpace c = false := by
      intro c hc
      rw [hX, nologinSuf_cons] at hc
      exact head_not_space_append_colon hXhead c hc
    have hblast : ∀ c, (joinColon (rewriteFields (lineFields l))).getLast? = some c →
        isPySpace c = false := by
      intro c hc
      rw [hX, List.getLast?_append, nologinSuf_getLast] at hc
      have hc2 : (some 'n' : Option Char) = some c := hc
      simp only [Option.some.injEq] at hc2
      subst hc2
      rfl
    have hpstrip : pyStrip (joinColon (rewriteFields (lineFields l)) ++ ['\n']) =
        joinColon (rewriteFields (lineFields l)) := by
      rw [pyStrip_append_newline, pyStrip_eq_self hbhead hblast]
    have hfieldsp : lineFields (joinColon (rewriteFields (lineFields l)) ++ ['\n']) =
        rewriteFields (lineFields l) := by
      rw [lineFields, hpstrip, hsplit]
    have hlenp : 6 ≤ (lineFields (joinColon (rewriteFields (lineFields l)) ++ ['\n'])).length := by
      rw [hfieldsp]
      exact rewriteFields_len_ge hlen
    have huid : uidTok (joinColon (rewriteFields (lineFields l)) ++ ['\n']) = uidTok l := by
      rw [uidTok, hfieldsp, getD2_rewriteFields hlen]
      rfl
    have hblocked : searchBlocked
        (pyStrip (joinColon (rewriteFields (lineFields l)) ++ ['\n'])) = true := by
      rw [hpstrip, searchBlocked, hX, endsW_append_self]
      rfl
    exact fixStep_blocked hlenp (by rw [huid]; exact hn) hblocked
  · -- 8-or-more-field case: the body is the stripped line itself
    have hpstrip : pyStrip (joinColon (rewriteFields (lineFields l)) ++ ['\n']) =
        pyStrip l := by
      rw [heq, pyStrip_append_newline, pyStrip_idem]
    have hfieldsp : lineFields (joinColon (rewriteFields (lineFields l)) ++ ['\n']) =
        lineFields l := by
      rw [lineFields, hpstrip]
      rfl
    have huid : uidTok (joinColon (rewriteFields (lineFields l)) ++ ['\n']) = uidTok l := by
      rw [uidTok, hfieldsp]
      rfl
    have hlenp : 6 ≤ (lineFields (joinColon (rewriteFields (lineFields l)) ++ ['\n'])).length := by
      rw [hfieldsp]
      exact hlen
    by_cases hsubp : substantive (joinColon (rewriteFields (lineFields l)) ++ ['\n']) = true
    · have hres := fixStep_rewrite hsubp hlenp (by rw [huid]; exact hn)
        (by rw [isExemptVal_congr huid]; exact hex)
        (by rw [hpstrip]; exact hnb)
      rw [hres, hfieldsp]
    · exact fixStep_not_substantive (by simpa using hsubp)

/-- The piece emitted for a valid line is itself a valid line, and it ends
with a newline whenever the input line did. -/
theorem fixStep_piece_valid {l p : Line} (h : fixStep l = .emit p)
    (hne : l ≠ []) (hinner : ∀ c ∈ l.dropLast, c ≠ '\n') :
    (p ≠ [] ∧ ∀ c ∈ p.dropLast, c ≠ '\n') ∧
      (l.getLast? = some '\n' → p.getLast? = some '\n') := by
  rcases fixStep_cases h with ⟨_, rfl⟩ | ⟨hsub, hlen, n, hn, hcase⟩
  · exact ⟨⟨hne, hinner⟩, fun hx => hx⟩
  rcases hcase with ⟨_, rfl⟩ | ⟨_, _, rfl⟩ | ⟨hex, hnb, rfl⟩
  · exact ⟨⟨hne, hinner⟩, fun hx => hx⟩
  · exact ⟨⟨hne, hinner⟩, fun hx => hx⟩
  have hnl : '\n' ∉ joinColon (rewriteFields (lineFields l)) := by
    intro hmem
    rcases mem_joinColon hmem with h1 | ⟨f, hf, hcf⟩
    · exact absurd h1 (by decide)
    · rcases rewriteFields_mem hf with h2 | rfl
      · exact pyStrip_no_newline hne hinner (mem_of_mem_splitColon h2 hcf)
      · exact absurd hcf (by decide)
  refine ⟨⟨by simp, ?_⟩, fun _ => ?_⟩
  · rw [List.dropLast_concat]
    exact fun c hc hcn => hnl (hcn ▸ hc)
  · rw [List.getLast?_concat]

theorem chainOk_pieces : ∀ {lines ps : List Line},
    List.Forall₂ EmitsTo lines ps → ChainOk lines → ChainOk ps := by
  intro lines ps hf
  induction hf with
  | nil => intro _; trivial
  | @cons a b l1 l2 hab hrest ih =>
    intro hc
    cases hrest with
    | nil =>
      obtain ⟨hne, hinner⟩ := hc
      exact (fixStep_piece_valid hab hne hinner).1
    | @cons q bq l1b l2b hqq hrest2 =>
      obtain ⟨⟨⟨hne, hinner⟩, hlast⟩, hc2⟩ := hc
      have hpv := fixStep_piece_valid hab hne hinner
      exact ⟨⟨hpv.1, hpv.2 hlast⟩, ih hc2⟩

theorem forall2_emit_of_wf {lines : List Line}
    (hwf : ∀ l ∈ lines, lineOk l = true) :
    ∃ ps, List.Forall₂ EmitsTo lines ps := by
  induction lines with
  | nil => exact ⟨[], .nil⟩
  | cons l rest ih =>
    obtain ⟨p, hp⟩ := fixStep_emit_of_lineOk (hwf l (List.mem_cons_self l rest))
    obtain ⟨ps, hps⟩ := ih (fun x hx => hwf x (List.mem_cons_of_mem l hx))
    exact ⟨p :: ps, .cons hp hps⟩

theorem forall2_mem_right {R : Line → Line → Prop} :
    ∀ {as bs : List Line}, List.Forall₂ R as bs → ∀ b ∈ bs, ∃ a ∈ as, R a b := by
  intro as bs hf
  induction hf with
  | nil => intro b hb; simp at hb
  | @cons a b l1 l2 hab _ ih =>
    intro x hx
    rcases List.mem_cons.mp hx with rfl | hx2
    · exact ⟨a, List.mem_cons_self a l1, hab⟩
    · obtain ⟨a2, ha2, hr⟩ := ih x hx2
      exact ⟨a2, List.mem_cons_of_mem a ha2, hr⟩

theorem forall2_ne_nil {R : Line → Line → Prop} {as bs : List Line}
    (h : List.Forall₂ R as bs) (hne : as ≠ []) : bs ≠ [] := by
  cases h with
  | nil => exact absurd rfl hne
  | cons _ _ => simp

/-! ### Whole-run lemmas -/

theorem toLines_ne_nil {s : String} (h : s ≠ "") : toLines s ≠ [] := by
  intro h0
  apply h
  have hd : s.data = [] := splitNl_eq_nil_iff.mp h0
  have : s = (⟨s.data⟩ : String) := rfl
  rw [this, hd]

/-- One well-formed `fix` pass, described by its pieces: the loop emits one
piece per input line, the resulting file content is their concatenation,
and re-reading that content recovers exactly the pieces. -/
theorem fix_run_wf {s : String} (hwf : wellFormedL (toLines s) = true) :
    ∃ ps, List.Forall₂ EmitsTo (toLines s) ps ∧
      fixLoop (toLines s) [] = .ok ps.flatten ∧
      toLines (fixContentAfter s) = ps ∧
      (fixContentAfter s).data = ps.flatten := by
  obtain ⟨ps, hps⟩ := forall2_emit_of_wf (List.all_eq_true.mp hwf)
  have hloop : fixLoop (toLines s) [] = .ok ps.flatten :=
    fixLoop_ok_iff.mpr ⟨ps, hps, rfl⟩
  have hchain : ChainOk ps := chainOk_pieces hps (chainOk_splitNl s.data)
  have hsplit : splitNl ps.flatten = ps := splitNl_flatten hchain
  have hdata : (fixContentAfter s).data = ps.flatten := by
    rw [fixContentAfter]
    by_cases hnil : toLines s = []
    · rw [if_pos hnil]
      rw [hnil] at hps
      cases hps
      exact splitNl_eq_nil_iff.mp hnil
    · rw [if_neg hnil, hloop]
  exact ⟨ps, hps, hloop, by rw [toLines, hdata, hsplit], hdata⟩

theorem fix_pieces_fixpoint {s : String} {ps : List Line}
    (hps : List.Forall₂ EmitsTo (toLines s) ps) :
    ∀ p ∈ ps, fixStep p = .emit p := by
  intro p hp
  obtain ⟨a, _, hr⟩ := forall2_mem_right hps p hp
  exact fixStep_fixpoint hr

/-- The second `fix` pass rebuilds exactly the content the first pass
wrote. -/
theorem fix_second_run_same {s : String} (hwf : wellFormedL (toLines s) = true) :
    fixLoop (toLines (fixContentAfter s)) [] = .ok (fixContentAfter s).data := by
  obtain ⟨ps, hps, _, hlines, hdata⟩ := fix_run_wf hwf
  rw [hlines, hdata, fixLoop_copy (fix_pieces_fixpoint hps) []]
  rfl

theorem fixContentAfter_idem {s : String} (hwf : wellFormedL (toLines s) = true) :
    fixContentAfter (fixContentAfter s) = fixContentAfter s := by
  obtain ⟨ps, hps, _, hlines, hdata⟩ := fix_run_wf hwf
  rw [fixContentAfter, hlines]
  by_cases hnil : ps = []
  · rw [if_pos hnil]
  · rw [if_neg hnil, fixLoop_copy (fix_pieces_fixpoint hps) [], List.nil_append]
    have : fixContentAfter s = (⟨(fixContentAfter s).data⟩ : String) := rfl
    rw [this, hdata]

theorem wellFormed_after_fix {s : String} (hwf : wellFormedL (toLines s) = true) :
    wellFormedL (toLines (fixContentAfter s)) = true := by
  obtain ⟨ps, hps, _, hlines, _⟩ := fix_run_wf hwf
  rw [hlines]
  refine List.all_eq_true.mpr (fun p hp => ?_)
  exact fixStep_emit_lineOk (fix_pieces_fixpoint hps p hp)

/-- Compliance after a `fix` pass, provided every non-exempt record that
needed rewriting had at most 7 fields (8-or-more-field records are re-joined
without being blocked) and every already-blocked record matched the
end-anchored raw-line pattern that `report` uses (a blocked shell followed
by trailing whitespace satisfies `fix`'s stripped check but not
`report`'s). -/
theorem compliant_after_fix {s : String} (hwf : wellFormedL (toLines s) = true)
    (hne : s ≠ "")
    (hgood : ∀ l ∈ toLines s, substantive l = true → isExempt l = false →
      (searchBlocked (pyStrip l) = false → (lineFields l).length ≤ 7) ∧
      (searchBlocked (pyStrip l) = true → searchBlocked l = true)) :
    (reportText false (fixContentAfter s)).compliant = true := by
  obtain ⟨ps, hps, _, hlines, _⟩ := fix_run_wf hwf
  have hval : ∀ p ∈ ps, lineOkVal p = true := by
    intro p hp
    obtain ⟨a, ha, hr⟩ := forall2_mem_right hps p hp
    rcases fixStep_cases hr with ⟨hsub, rfl⟩ | ⟨hsub, hlen, n, hn, hcase⟩
    · simp [lineOkVal, hsub]
    rcases hcase with ⟨hex, rfl⟩ | ⟨hex, hb, rfl⟩ | ⟨hex, hnb, rfl⟩
    · simp [lineOkVal, isExempt_of_some hn, hex]
    · have hexf : isExempt p = false := by rw [isExempt_of_some hn]; exact hex
      have hraw := (hgood p ha hsub hexf).2 hb
      simp [lineOkVal, hraw]
    · have hexf : isExempt a = false := by rw [isExempt_of_some hn]; exact hex
      have hle7 := (hgood a ha hsub hexf).1 hnb
      rcases body_shape hlen with ⟨X, hX, _⟩ | ⟨_, h8⟩
      · have hbl : searchBlocked
            (joinColon (rewriteFields (lineFields a)) ++ ['\n']) = true := by
          rw [searchBlocked, hX]
          have hend : endsW (X ++ (nologinSuf ++ ['\n'])) (nologinSuf ++ ['\n']) = true :=
            endsW_append_self X (nologinSuf ++ ['\n'])
          simp [hend]
        simp [lineOkVal, hbl]
      · omega
  have hwf2 := wellFormed_after_fix hwf
  have hne2 : toLines (fixContentAfter s) ≠ [] := by
    rw [hlines]
    exact forall2_ne_nil hps (toLines_ne_nil hne)
  rw [reportText, report_wf hwf2 hne2]
  show codeAllBlocked (toLines (fixContentAfter s)) = true
  rw [hlines]
  exact List.all_eq_true.mpr hval

/-! ### Claim C1 -/

/-- Spec-side predicate (C1's wording): the line, right-trimmed, ends in
`":/sbin/nologin"` or `":/dev/null"`. -/
def specBlockedRightTrim (l : Line) : Bool :=
  endsW (rstripC l) nologinSuf || endsW (rstripC l) devnullSuf

/-- Spec-side predicate (C1's wording): the record's UID value is 0 or at
least 500. -/
def specExemptUid (l : Line) : Bool :=
  match pyInt (uidTok l) with
  | some n => n = 0 || n ≥ 500
  | none => false

/-- Spec-side compliance condition of C1: every non-comment, non-blank
record whose UID is neither 0 nor at least 500 has a right-trimmed line
ending in a blocking shell. -/
def specC1AllBlocked (lines : List Line) : Bool :=
  lines.all fun l => !substantive l || specExemptUid l || specBlockedRightTrim l

/-- C1, counterexample: on `"daemon:x:1:1:d:/usr:/sbin/nologin \n"` (a
trailing space before the newline) the database parses, every record
satisfies the claim's right-trimmed blocking condition, and yet `report`
returns compliant = false, because the source matches the end-anchored
regex against the raw line, which the trailing space defeats.  The claim's
if-and-only-if is therefore false as stated. -/
theorem c1_counterexample :
    wellFormedL (toLines "daemon:x:1:1:d:/usr:/sbin/nologin \n") = true ∧
    specC1AllBlocked (toLines "daemon:x:1:1:d:/usr:/sbin/nologin \n") = true ∧
    (reportText false "daemon:x:1:1:d:/usr:/sbin/nologin \n").compliant = false := by
  decide

/-- C1, amended: for every nonempty account-database text that parses
without error, `report` returns compliant = true iff every non-comment,
non-blank record that is not exempt by the source's test (UID field parsing
at least 500, or the literal token `"0"`) has a raw line matching the
end-anchored blocked pattern (ends in `":/sbin/nologin"` or `":/dev/null"`,
optionally followed by the final newline); and `report` performs no write
to the account database. -/
theorem c1_amended (s : String) (hne : s ≠ "")
    (hwf : wellFormedL (toLines s) = true) :
    ((reportText false s).compliant = true ↔ codeAllBlocked (toLines s) = true) ∧
    reportWrites = [] := by
  constructor
  · rw [reportText, report_wf hwf (toLines_ne_nil hne)]
  · rfl

theorem c1_amended_witness :
    (("daemon:x:1:1:d:/usr:/bin/sh\n" : String) ≠ "" ∧
      wellFormedL (toLines "daemon:x:1:1:d:/usr:/bin/sh\n") = true) ∧
    (((reportText false "daemon:x:1:1:d:/usr:/bin/sh\n").compliant = true ↔
        codeAllBlocked (toLines "daemon:x:1:1:d:/usr:/bin/sh\n") = true) ∧
      reportWrites = []) :=
  ⟨⟨by decide, by decide⟩, c1_amended _ (by decide) (by decide)⟩

/-! ### Claim C2 -/

/-- C2: for a non-exempt (UID value neither 0 nor at least 500), unblocked
record, `fix` emits the colon-rejoined, newline-terminated rewrite of its
fields, where a 6-field record gets `"/sbin/nologin"` appended as a 7th
field and a 7-field record gets field 7 overwritten; in both cases the
result has 7 fields, the first 6 fields (in particular field 6) are
unchanged, and field 7 is `"/sbin/nologin"`. -/
theorem c2_fix_blocks (l : Line) (n : Int)
    (hsub : substantive l = true)
    (hn : pyInt (uidTok l) = some n)
    (h0 : n ≠ 0) (h500 : n < 500)
    (hnb : searchBlocked (pyStrip l) = false)
    (hlen : (lineFields l).length = 6 ∨ (lineFields l).length = 7) :
    fixStep l = .emit (joinColon (rewriteFields (lineFields l)) ++ ['\n']) ∧
    (rewriteFields (lineFields l)).length = 7 ∧
    (rewriteFields (lineFields l)).take 6 = (lineFields l).take 6 ∧
    (rewriteFields (lineFields l)).getD 6 [] = nologinField := by
  have hex : isExemptVal l n = false := by
    rw [isExemptVal]
    have h1 : decide (n ≥ 500) = false := decide_eq_false_iff_not.mpr (by omega)
    have h2 : decide (uidTok l = ['0']) = false := by
      rw [decide_eq_false_iff_not]
      intro he
      rw [he] at hn
      have hz : pyInt ['0'] = some 0 := by decide
      rw [hz] at hn
      simp only [Option.some.injEq] at hn
      exact h0 hn.symm
    rw [h1, h2]
    rfl
  have hlen6 : 6 ≤ (lineFields l).length := by rcases hlen with h | h <;> omega
  have hset : (lineFields l).length = 7 →
      (lineFields l).set 6 nologinField =
        (lineFields l).take 6 ++ [nologinField] := by
    intro h7
    rw [List.set_eq_take_append_cons_drop, if_pos (by omega),
      List.drop_eq_nil_of_le (by omega)]
  have htk6 : (lineFields l).length = 7 → ((lineFields l).take 6).length = 6 := by
    intro h7
    rw [List.length_take, h7]
    rfl
  refine ⟨fixStep_rewrite hsub hlen6 hn hex hnb, ?_, ?_, ?_⟩
  · rw [rewriteFields]
    rcases hlen with h6 | h7
    · rw [if_pos h6, List.length_append, h6]
      rfl
    · rw [if_neg (by omega), if_pos h7, List.length_set]
      exact h7
  · rw [rewriteFields]
    rcases hlen with h6 | h7
    · rw [if_pos h6, List.take_left' h6, ← h6, List.take_length]
    · rw [if_neg (by omega), if_pos h7, hset h7, List.take_left' (htk6 h7)]
  · rw [rewriteFields]
    rcases hlen with h6 | h7
    · rw [if_pos h6, List.getD_eq_getElem?_getD, ← h6, List.getElem?_concat_length]
      rfl
    · have hcl := List.getElem?_concat_length ((lineFields l).take 6) nologinField
      rw [htk6 h7] at hcl
      rw [if_neg (by omega), if_pos h7, hset h7, List.getD_eq_getElem?_getD, hcl]
      rfl

theorem c2_fix_blocks_witness :
    (substantive "daemon:x:1:1:daemon:/usr/sbin\n".data = true ∧
      pyInt (uidTok "daemon:x:1:1:daemon:/usr/sbin\n".data) = some 1 ∧
      (1 : Int) ≠ 0 ∧ (1 : Int) < 500 ∧
      searchBlocked (pyStrip "daemon:x:1:1:daemon:/usr/sbin\n".data) = false ∧
      (lineFields "daemon:x:1:1:daemon:/usr/sbin\n".data).length = 6) ∧
    (fixStep "daemon:x:1:1:daemon:/usr/sbin\n".data =
      .emit (joinColon (rewriteFields (lineFields "daemon:x:1:1:daemon:/usr/sbin\n".data)) ++ ['\n']) ∧
    (rewriteFields (lineFields "daemon:x:1:1:daemon:/usr/sbin\n".data)).length = 7 ∧
    (rewriteFields (lineFields "daemon:x:1:1:daemon:/usr/sbin\n".data)).take 6 =
      (lineFields "daemon:x:1:1:daemon:/usr/sbin\n".data).take 6 ∧
    (rewriteFields (lineFields "daemon:x:1:1:daemon:/usr/sbin\n".data)).getD 6 [] =
      nologinField) :=
  ⟨⟨by decide, by decide, by decide, by decide, by decide, by decide⟩,
    c2_fix_blocks _ 1 (by decide) (by decide) (by decide) (by decide) (by decide)
      (Or.inl (by decide))⟩

/-! ### Claim C9 -/

/-- C9: on empty content `report` never sets the compliant flag; from the
fresh state (compliant = false) it returns false without a bad-format
indication, and a stale prior value passes through untouched, so empty
content is never newly judged compliant. -/
theorem c9_empty_report :
    (reportText false "").compliant = false ∧
    (reportText false "").rulesuccess = true ∧
    (reportText false "").badFormat = false ∧
    (reportText true "").compliant = true := by decide

/-! ### Claim C10 -/

/-- C10: a non-exempt, unblocked record with 8 or more fields is re-emitted
with no field appended or overwritten: the emitted line is the
whitespace-stripped, colon-rejoined, newline-terminated original record,
and its login shell is still unblocked. -/
theorem c10_eight_fields (l : Line) (n : Int)
    (hsub : substantive l = true)
    (hn : pyInt (uidTok l) = some n)
    (hex : isExemptVal l n = false)
    (hnb : searchBlocked (pyStrip l) = false)
    (hlen : 8 ≤ (lineFields l).length) :
    fixStep l = .emit (pyStrip l ++ ['\n']) ∧
    searchBlocked (pyStrip (pyStrip l ++ ['\n'])) = false := by
  have h1 := fixStep_rewrite hsub (by omega) hn hex hnb
  rw [rewriteFields_eq_self_of_ge8 hlen, lineFields, joinColon_splitColon] at h1
  refine ⟨h1, ?_⟩
  rw [pyStrip_append_newline, pyStrip_idem]
  exact hnb

theorem c10_eight_fields_witness :
    (substantive "a:x:1:1:g:/h:/bin/sh:extra\n".data = true ∧
      pyInt (uidTok "a:x:1:1:g:/h:/bin/sh:extra\n".data) = some 1 ∧
      isExemptVal "a:x:1:1:g:/h:/bin/sh:extra\n".data 1 = false ∧
      searchBlocked (pyStrip "a:x:1:1:g:/h:/bin/sh:extra\n".data) = false ∧
      8 ≤ (lineFields "a:x:1:1:g:/h:/bin/sh:extra\n".data).length) ∧
    (fixStep "a:x:1:1:g:/h:/bin/sh:extra\n".data =
      .emit (pyStrip "a:x:1:1:g:/h:/bin/sh:extra\n".data ++ ['\n']) ∧
    searchBlocked (pyStrip (pyStrip "a:x:1:1:g:/h:/bin/sh:extra\n".data ++ ['\n'])) = false) :=
  ⟨⟨by decide, by decide, by decide, by decide, by decide⟩,
    c10_eight_fields _ 1 (by decide) (by decide) (by decide) (by decide) (by decide)⟩

/-! ### Claim C3 -/

/-- C3, counterexample: the database
`"a:x:zz:1:g:/h:/s\nb:x:1:1\n"` contains a substantive line with only 4
fields, yet neither `report` nor `fix` produces the format-error
indication, and `report` does not even fail: the earlier line's unparsable
UID field raises `ValueError` first, which `report`'s outer handler
swallows (leaving `rulesuccess` true) and which `fix` reports as a plain
failure without the bad-format message. -/
theorem c3_counterexample :
    (∃ l ∈ toLines "a:x:zz:1:g:/h:/s\nb:x:1:1\n",
      substantive l = true ∧ (lineFields l).length < 6) ∧
    (reportText false "a:x:zz:1:g:/h:/s\nb:x:1:1\n").badFormat = false ∧
    (reportText false "a:x:zz:1:g:/h:/s\nb:x:1:1\n").rulesuccess = true ∧
    (fixRunText false true "a:x:zz:1:g:/h:/s\nb:x:1:1\n").badFormat = false := by
  decide

/-- C3, amended: if a substantive line has fewer than 6 fields and every
line before it is accepted by the scan (comment/blank, or at least 6 fields
with a parsable UID), then `report` returns false with compliant = false,
rulesuccess = false and the bad-format indication, `fix` fails with the
bad-format indication, and `fix` performs no content write: its only
possible effect is the permission repair that precedes the loop. -/
theorem c3_amended (pre post : List Line) (bad : Line)
    (hp : ∀ l ∈ pre, lineOk l = true)
    (hb : substantive bad = true) (hlen : (lineFields bad).length < 6)
    (prior permsBad writeOk : Bool) :
    report prior (pre ++ bad :: post) = ⟨false, false, true⟩ ∧
    (fixRun permsBad writeOk (pre ++ bad :: post)).badFormat = true ∧
    (fixRun permsBad writeOk (pre ++ bad :: post)).rulesuccess = false ∧
    ∀ e ∈ (fixRun permsBad writeOk (pre ++ bad :: post)).trace,
      e = .setPermsFix := by
  have hne : pre ++ bad :: post ≠ [] := by simp
  have hr := reportLoop_prefix_badFormat post hp hb hlen true
  have hf := fixLoop_prefix_badFormat post hp hb hlen []
  refine ⟨?_, ?_, ?_, ?_⟩
  · rw [report, if_neg hne]
    simp only [hr]
  · rw [fixRun, if_neg hne]
    simp only [hf]
  · rw [fixRun, if_neg hne]
    simp only [hf]
  · rw [fixRun, if_neg hne]
    simp only [hf]
    cases permsBad <;> simp

theorem c3_amended_witness :
    ((∀ l ∈ ([] : List Line), lineOk l = true) ∧
      substantive "b:x:1:1\n".data = true ∧
      (lineFields "b:x:1:1\n".data).length < 6) ∧
    (report false ([] ++ "b:x:1:1\n".data :: []) = ⟨false, false, true⟩ ∧
    (fixRun false true ([] ++ "b:x:1:1\n".data :: [])).badFormat = true ∧
    (fixRun false true ([] ++ "b:x:1:1\n".data :: [])).rulesuccess = false ∧
    ∀ e ∈ (fixRun false true ([] ++ "b:x:1:1\n".data :: [])).trace,
      e = .setPermsFix) :=
  ⟨⟨by decide, by decide, by decide⟩,
    c3_amended [] [] _ (by decide) (by decide) (by decide) false false true⟩

/-! ### Claim C4 -/

/-- C4, counterexample: on the already-compliant database
`"daemon:x:1:1:d:/u:/sbin/nologin\n"`, `report` returns compliant = true
but `fix` still writes the temp file, records the journal entries and
renames the temp file over the original — the claim's "fix performs no
file write" is false.  (The written content is byte-identical to the
original.) -/
theorem c4_counterexample :
    (reportText false "daemon:x:1:1:d:/u:/sbin/nologin\n").compliant = true ∧
    (fixRunText false true "daemon:x:1:1:d:/u:/sbin/nologin\n").trace =
      [.writeTemp "daemon:x:1:1:d:/u:/sbin/nologin\n".data, .recordChangeEvent,
       .recordFileChange, .rename, .chown, .chmod, .resetsecon] := by
  decide

/-- C4, amended: on a nonempty, well-formed database in which every
substantive record is exempt or matches the raw-line blocked pattern,
`report` returns compliant = true, and `fix` does write and rename — but
the written content is byte-identical to the original, so the on-disk
content is unchanged. -/
theorem c4_amended (s : String) (hne : s ≠ "")
    (hwf : wellFormedL (toLines s) = true)
    (hall : ∀ l ∈ toLines s, substantive l = true →
      (isExempt l || searchBlocked l) = true) :
    (reportText false s).compliant = true ∧
    (fixRunText false true s).trace =
      [.writeTemp s.data, .recordChangeEvent, .recordFileChange, .rename,
       .chown, .chmod, .resetsecon] ∧
    fixContentAfter s = s := by
  have hok : ∀ l ∈ toLines s, fixStep l = .emit l := fun l hl =>
    fixStep_copy (List.all_eq_true.mp hwf l hl) (hall l hl)
  have hloop : fixLoop (toLines s) [] = .ok (toLines s).flatten := by
    rw [fixLoop_copy hok []]
    rw [List.nil_append]
  have hflat : (toLines s).flatten = s.data := flatten_splitNl s.data
  refine ⟨?_, ?_, ?_⟩
  · rw [reportText, report_wf hwf (toLines_ne_nil hne)]
    show codeAllBlocked (toLines s) = true
    refine List.all_eq_true.mpr (fun l hl => ?_)
    by_cases hsub : substantive l = true
    · rcases bor_elim (hall l hl hsub) with h | h <;> simp [lineOkVal, h]
    · simp [lineOkVal, (by simpa using hsub : substantive l = false)]
  · rw [fixRunText, fixRun, if_neg (toLines_ne_nil hne)]
    simp only [hloop, hflat]
    rfl
  · rw [fixContentAfter, if_neg (toLines_ne_nil hne)]
    simp only [hloop, hflat]

theorem c4_amended_witness :
    (("root:x:0:0:root:/root:/bin/bash\ndaemon:x:1:1:d:/u:/sbin/nologin\n" : String) ≠ "" ∧
      wellFormedL (toLines "root:x:0:0:root:/root:/bin/bash\ndaemon:x:1:1:d:/u:/sbin/nologin\n") = true ∧
      (∀ l ∈ toLines "root:x:0:0:root:/root:/bin/bash\ndaemon:x:1:1:d:/u:/sbin/nologin\n",
        substantive l = true → (isExempt l || searchBlocked l) = true)) ∧
    ((reportText false "root:x:0:0:root:/root:/bin/bash\ndaemon:x:1:1:d:/u:/sbin/nologin\n").compliant = true ∧
    (fixRunText false true "root:x:0:0:root:/root:/bin/bash\ndaemon:x:1:1:d:/u:/sbin/nologin\n").trace =
      [.writeTemp "root:x:0:0:root:/root:/bin/bash\ndaemon:x:1:1:d:/u:/sbin/nologin\n".data,
       .recordChangeEvent, .recordFileChange, .rename, .chown, .chmod, .resetsecon] ∧
    fixContentAfter "root:x:0:0:root:/root:/bin/bash\ndaemon:x:1:1:d:/u:/sbin/nologin\n" =
      "root:x:0:0:root:/root:/bin/bash\ndaemon:x:1:1:d:/u:/sbin/nologin\n") :=
  ⟨⟨by decide, by decide, by decide⟩,
    c4_amended _ (by decide) (by decide) (by decide)⟩

/-! ### Claim C6 -/

/-- C6, counterexample: the record `"a:x:00:0:g:/h:/bin/sh\n"` has UID
value 0 (its UID field is `"00"`), yet `fix` rewrites it: the source's
exemption test compares the raw token against the literal `"0"`, so this
UID-0 record is treated as non-exempt and its 7th field is overwritten. -/
theorem c6_counterexample :
    pyInt (uidTok "a:x:00:0:g:/h:/bin/sh\n".data) = some 0 ∧
    fixStep "a:x:00:0:g:/h:/bin/sh\n".data =
      .emit "a:x:00:0:g:/h:/sbin/nologin\n".data ∧
    "a:x:00:0:g:/h:/sbin/nologin\n".data ≠ "a:x:00:0:g:/h:/bin/sh\n".data := by
  decide

theorem fixLoop_contains {l p : Line} (hstep : fixStep l = .emit p) :
    ∀ (pre post : List Line) (acc t : PyStr),
      fixLoop (pre ++ l :: post) acc = .ok t → ∃ a b, t = a ++ p ++ b := by
  intro pre
  induction pre with
  | nil =>
    intro post acc t h
    rw [List.nil_append] at h
    simp only [fixLoop, hstep] at h
    obtain ⟨u, rfl, _⟩ := fixLoop_ok_append h
    exact ⟨acc, u, by simp⟩
  | cons q rest ih =>
    intro post acc t h
    rw [List.cons_append] at h
    cases hq : fixStep q with
    | emit pq =>
      simp only [fixLoop, hq] at h
      exact ih post (acc ++ pq) t h
    | badFormat => simp only [fixLoop, hq] at h; exact absurd h (by simp)
    | valueError => simp only [fixLoop, hq] at h; exact absurd h (by simp)

/-- C6, amended: a record whose UID field parses to at least 500 or is the
literal token `"0"` is never modified by `fix`: its loop iteration emits
the line verbatim, and in any successful loop run the line appears verbatim
in the rewritten content. -/
theorem c6_amended (l : Line) (n : Int)
    (hlen : 6 ≤ (lineFields l).length)
    (hn : pyInt (uidTok l) = some n)
    (hex : n ≥ 500 ∨ uidTok l = ['0']) :
    fixStep l = .emit l ∧
    ∀ (pre post : List Line) (t : PyStr),
      fixLoop (pre ++ l :: post) [] = .ok t → ∃ a b, t = a ++ l ++ b := by
  have hexv : isExemptVal l n = true := by
    rw [isExemptVal]
    rcases hex with h | h
    · simp [h]
    · simp [h]
  have hstep := fixStep_exempt hlen hn hexv
  exact ⟨hstep, fun pre post t h => fixLoop_contains hstep pre post [] t h⟩

theorem c6_amended_witness :
    (6 ≤ (lineFields "root:x:0:0:root:/root:/bin/bash\n".data).length ∧
      pyInt (uidTok "root:x:0:0:root:/root:/bin/bash\n".data) = some 0 ∧
      ((0 : Int) ≥ 500 ∨ uidTok "root:x:0:0:root:/root:/bin/bash\n".data = ['0'])) ∧
    (fixStep "root:x:0:0:root:/root:/bin/bash\n".data =
      .emit "root:x:0:0:root:/root:/bin/bash\n".data ∧
    ∀ (pre post : List Line) (t : PyStr),
      fixLoop (pre ++ "root:x:0:0:root:/root:/bin/bash\n".data :: post) [] = .ok t →
        ∃ a b, t = a ++ "root:x:0:0:root:/root:/bin/bash\n".data ++ b) :=
  ⟨⟨by decide, by decide, Or.inr (by decide)⟩,
    c6_amended _ 0 (by decide) (by decide) (Or.inr (by decide))⟩

/-! ### Claim C5 -/

/-- C5, counterexample: `"a:x:1:1:g:/h:/bin/sh:x\n"` is a well-formed
database (8 fields, UID 1).  `fix` rejoins the record without blocking it,
so the content is unchanged — and the compliance verdict after fixing is
false, not true as the claim states. -/
theorem c5_counterexample :
    wellFormedL (toLines "a:x:1:1:g:/h:/bin/sh:x\n") = true ∧
    fixContentAfter "a:x:1:1:g:/h:/bin/sh:x\n" = "a:x:1:1:g:/h:/bin/sh:x\n" ∧
    (reportText false (fixContentAfter "a:x:1:1:g:/h:/bin/sh:x\n")).compliant =
      false := by
  decide

/-- C5, amended: on any well-formed database, running `fix` twice yields
identical content after the second run as after the first; the second run's
loop rebuilds exactly the content the first run wrote (it makes no
changes); and the compliance verdict after fixing is true provided the
content is nonempty, every non-exempt record that needed rewriting had at
most 7 fields, and every already-blocked non-exempt record matched the
end-anchored raw-line pattern that `report` checks. -/
theorem c5_amended (s : String) (hwf : wellFormedL (toLines s) = true) :
    fixContentAfter (fixContentAfter s) = fixContentAfter s ∧
    fixLoop (toLines (fixContentAfter s)) [] = .ok (fixContentAfter s).data ∧
    (s ≠ "" →
      (∀ l ∈ toLines s, substantive l = true → isExempt l = false →
        (searchBlocked (pyStrip l) = false → (lineFields l).length ≤ 7) ∧
        (searchBlocked (pyStrip l) = true → searchBlocked l = true)) →
      (reportText false (fixContentAfter s)).compliant = true) :=
  ⟨fixContentAfter_idem hwf, fix_second_run_same hwf,
    fun hne hgood => compliant_after_fix hwf hne hgood⟩

theorem c5_amended_witness :
    wellFormedL (toLines "daemon:x:1:1:d:/u:/bin/sh\n") = true ∧
    (fixContentAfter (fixContentAfter "daemon:x:1:1:d:/u:/bin/sh\n") =
      fixContentAfter "daemon:x:1:1:d:/u:/bin/sh\n" ∧
    fixLoop (toLines (fixContentAfter "daemon:x:1:1:d:/u:/bin/sh\n")) [] =
      .ok (fixContentAfter "daemon:x:1:1:d:/u:/bin/sh\n").data ∧
    (("daemon:x:1:1:d:/u:/bin/sh\n" : String) ≠ "" →
      (∀ l ∈ toLines "daemon:x:1:1:d:/u:/bin/sh\n",
        substantive l = true → isExempt l = false →
        (searchBlocked (pyStrip l) = false → (lineFields l).length ≤ 7) ∧
        (searchBlocked (pyStrip l) = true → searchBlocked l = true)) →
      (reportText false (fixContentAfter "daemon:x:1:1:d:/u:/bin/sh\n")).compliant =
        true)) :=
  ⟨by decide, c5_amended _ (by decide)⟩

/-! ### Claim C7 -/

/-- C7: (1) a record with at least 6 fields whose UID field is the literal
token `"0"` is treated as exempt by both `report` and `fix` (the token
parses as the integer 0, which fails the `>= 500` test, and then matches
the `== "0"` comparison); (2) if any substantive record's UID field fails
to parse as an integer, the scan never completes normally: `report`
returns false (from the fresh state) and `fix` fails, performing no
content write. -/
theorem c7_uid_parse :
    (∀ l : Line, 6 ≤ (lineFields l).length → uidTok l = ['0'] →
      reportStep l = .ok true ∧ fixStep l = .emit l) ∧
    (∀ lines : List Line,
      (∃ l ∈ lines, substantive l = true ∧ 6 ≤ (lineFields l).length ∧
        pyInt (uidTok l) = none) →
      (∀ b, reportLoop lines true ≠ .ok b) ∧
      (report false lines).compliant = false ∧
      (∀ permsBad writeOk : Bool,
        (fixRun permsBad writeOk lines).rulesuccess = false ∧
        ∀ e ∈ (fixRun permsBad writeOk lines).trace, e = .setPermsFix)) := by
  constructor
  · intro l hlen htok
    have hn : pyInt (uidTok l) = some 0 := by rw [htok]; decide
    have hex : isExemptVal l 0 = true := by
      rw [isExemptVal, htok]
      simp
    exact ⟨reportStep_exempt hlen hn hex, fixStep_exempt hlen hn hex⟩
  · intro lines hbad
    have hrep := reportLoop_not_ok hbad true
    have hfix := fixLoop_not_ok hbad []
    have hne : lines ≠ [] := by
      rintro rfl
      obtain ⟨l, hl, _⟩ := hbad
      simp at hl
    refine ⟨?_, ?_, ?_⟩
    · intro b hb
      rcases hrep with h | h <;> rw [hb] at h <;> simp at h
    · rcases hrep with h | h <;> simp [report, if_neg hne, h]
    · intro permsBad writeOk
      rw [fixRun, if_neg hne]
      rcases hfix with h | h <;> simp only [h] <;>
        exact ⟨by trivial, by cases permsBad <;> simp⟩

theorem c7_uid_parse_witness :
    (6 ≤ (lineFields "root:x:0:0:root:/root:/bin/bash\n".data).length ∧
      uidTok "root:x:0:0:root:/root:/bin/bash\n".data = ['0'] ∧
      reportStep "root:x:0:0:root:/root:/bin/bash\n".data = .ok true ∧
      fixStep "root:x:0:0:root:/root:/bin/bash\n".data =
        .emit "root:x:0:0:root:/root:/bin/bash\n".data) ∧
    ((∃ l ∈ ["a:x:zz:1:g:/h:/s\n".data], substantive l = true ∧
        6 ≤ (lineFields l).length ∧ pyInt (uidTok l) = none) ∧
      (∀ b, reportLoop ["a:x:zz:1:g:/h:/s\n".data] true ≠ .ok b) ∧
      (report false ["a:x:zz:1:g:/h:/s\n".data]).compliant = false ∧
      (∀ permsBad writeOk : Bool,
        (fixRun permsBad writeOk ["a:x:zz:1:g:/h:/s\n".data]).rulesuccess = false ∧
        ∀ e ∈ (fixRun permsBad writeOk ["a:x:zz:1:g:/h:/s\n".data]).trace,
          e = .setPermsFix)) :=
  ⟨⟨by decide, by decide,
      (c7_uid_parse.1 _ (by decide) (by decide)).1,
      (c7_uid_parse.1 _ (by decide) (by decide)).2⟩,
    ⟨by decide, c7_uid_parse.2 _ (by decide)⟩⟩

/-! ### Claim C8 -/

/-- C8: in every `fix` run that reaches the commit phase (the loop built
`tempstring` and the temp-file write succeeded), both change-journal
records come strictly before the rename of the temp file over the
original, and the rename comes strictly before the chown, chmod and
security-context reset. -/
theorem c8_commit_order (permsBad : Bool) (lines : List Line) (t : PyStr)
    (hok : fixLoop lines [] = .ok t) (hne : lines ≠ []) :
    (∀ i j : Nat,
      ((fixRun permsBad true lines).trace[i]? = some .recordChangeEvent ∨
       (fixRun permsBad true lines).trace[i]? = some .recordFileChange) →
      (fixRun permsBad true lines).trace[j]? = some .rename → i < j) ∧
    (∀ i j : Nat, (fixRun permsBad true lines).trace[i]? = some .rename →
      ((fixRun permsBad true lines).trace[j]? = some .chown ∨
       (fixRun permsBad true lines).trace[j]? = some .chmod ∨
       (fixRun permsBad true lines).trace[j]? = some .resetsecon) → i < j) := by
  have htr : (fixRun permsBad true lines).trace =
      (if permsBad then [Effect.setPermsFix] else []) ++
      [.writeTemp t, .recordChangeEvent, .recordFileChange, .rename, .chown,
       .chmod, .resetsecon] := by
    rw [fixRun, if_neg hne]
    simp only [hok]
    rw [if_pos trivial]
  rw [htr]
  cases permsBad <;>
    refine ⟨fun i j h1 h2 => ?_, fun i j h1 h2 => ?_⟩ <;>
    rcases i with _|_|_|_|_|_|_|_|i <;> rcases j with _|_|_|_|_|_|_|_|j <;>
    simp_all

theorem c8_commit_order_witness :
    (fixLoop ["daemon:x:1:1:d:/u:/sbin/nologin\n".data] [] =
        .ok "daemon:x:1:1:d:/u:/sbin/nologin\n".data ∧
      (["daemon:x:1:1:d:/u:/sbin/nologin\n".data] : List Line) ≠ []) ∧
    ((∀ i j : Nat,
      ((fixRun false true ["daemon:x:1:1:d:/u:/sbin/nologin\n".data]).trace[i]? =
          some .recordChangeEvent ∨
       (fixRun false true ["daemon:x:1:1:d:/u:/sbin/nologin\n".data]).trace[i]? =
          some .recordFileChange) →
      (fixRun false true ["daemon:x:1:1:d:/u:/sbin/nologin\n".data]).trace[j]? =
          some .rename → i < j) ∧
    (∀ i j : Nat,
      (fixRun false true ["daemon:x:1:1:d:/u:/sbin/nologin\n".data]).trace[i]? =
          some .rename →
      ((fixRun false true ["daemon:x:1:1:d:/u:/sbin/nologin\n".data]).trace[j]? =
          some .chown ∨
       (fixRun false true ["daemon:x:1:1:d:/u:/sbin/nologin\n".data]).trace[j]? =
          some .chmod ∨
       (fixRun false true ["daemon:x:1:1:d:/u:/sbin/nologin\n".data]).trace[j]? =
          some .resetsecon) → i < j)) :=
  ⟨⟨by decide, by decide⟩,
    c8_commit_order false ["daemon:x:1:1:d:/u:/sbin/nologin\n".data]
      "daemon:x:1:1:d:/u:/sbin/nologin\n".data (by decide) (by decide)⟩
